import Mathlib

/-!
Verification of the `period` package (ISO-8601 periods) against its
specification.

The package stores a period as seven decimal numbers (one per ISO-8601
field: years, months, weeks, days, hours, minutes, seconds) plus one
overall negative flag (`type Period64 struct` in `period64.go`, identical
to `type Period struct` in the later files).  Each field is a value of
the dependency `github.com/govalues/decimal`: a decimal number held as a
sign, an unsigned coefficient of at most 19 digits and a scale in 0..19
(`value = (neg ? -1 : 1) * coef / 10^scale`); a negative zero is not
representable.  That library is embedded first (`Dec` below), following
its documented semantics: exact results where they fit in 19 digits,
half-even rounding of fractional digits where they do not, and an error
(modelled as `none`) when the integer part cannot fit.

All machine integers (`int64`, `time.Duration`) are modelled as `Int`
with explicit two's-complement wrapping (`wrap64`).
-/

/-- Largest coefficient of a `govalues/decimal` value: 19 decimal digits. -/
def maxCoef : Nat := 10 ^ 19 - 1

/-- Largest scale of a `govalues/decimal` value. -/
def maxScale : Nat := 19

/-- Model of `decimal.Decimal` from `github.com/govalues/decimal`:
sign + unsigned coefficient + scale. -/
structure Dec where
  neg : Bool
  coef : Nat
  scale : Nat
deriving DecidableEq

/-- `decimal.Zero`. -/
def Dec.zero : Dec := ⟨false, 0, 0⟩

/-- Well-formedness of a `decimal.Decimal`: the coefficient has at most
19 digits, the scale is at most 19 and a zero is never negative. -/
def Dec.wf (d : Dec) : Prop :=
  d.coef ≤ maxCoef ∧ d.scale ≤ maxScale ∧ (d.coef = 0 → d.neg = false)

instance (d : Dec) : Decidable d.wf := by
  unfold Dec.wf; infer_instance

/-- Signed coefficient of a decimal (the numerator of `value · 10^scale`). -/
def Dec.sval (d : Dec) : Int :=
  if d.neg then -(d.coef : Int) else (d.coef : Int)

/-- `decimal.Decimal.Sign`: -1, 0 or 1. -/
def Dec.Sign (d : Dec) : Int :=
  if d.coef = 0 then 0 else if d.neg then -1 else 1

/-- `decimal.Decimal.IsZero`. -/
def Dec.IsZero (d : Dec) : Bool := d.coef = 0

/-- `decimal.Decimal.Neg`: flips the sign (a zero stays non-negative). -/
def Dec.Neg (d : Dec) : Dec :=
  if d.coef = 0 then d else { d with neg := !d.neg }

/-- Little-endian base-10 digits, by structural recursion on a fuel
argument (so that the kernel can evaluate it). -/
def natDigitsRevFuel : Nat → Nat → List Nat
  | 0, _ => []
  | fuel + 1, n => if n = 0 then [] else n % 10 :: natDigitsRevFuel fuel (n / 10)

/-- Little-endian base-10 digits of a natural number. -/
def natDigitsRev (n : Nat) : List Nat := natDigitsRevFuel n n

/-- `decimal.Decimal.Prec`: the number of digits in the coefficient. -/
def Dec.Prec (d : Dec) : Nat := (natDigitsRev d.coef).length

/-- `decimal.Decimal.Scale`. -/
def Dec.Scale (d : Dec) : Nat := d.scale

/-- `decimal.Decimal.Coef`. -/
def Dec.Coef (d : Dec) : Nat := d.coef

/-- One half-even rounding step: divides a magnitude by ten, rounding
half to even (the rounding used by `govalues/decimal`). -/
def roundTenNat (n : Nat) : Nat :=
  let q := n / 10
  let r := n % 10
  if 5 < r ∨ (r = 5 ∧ q % 2 = 1) then q + 1 else q

/-- Fit a (sign, magnitude, scale) triple into a representable decimal:
while the coefficient exceeds 19 digits (or the scale exceeds 19),
drop one fractional digit with half-even rounding; fail (overflow error)
if the integer part still does not fit.  This models the
"possibly rounded" results of `govalues/decimal` arithmetic. -/
def fitDec (neg : Bool) : Nat → Nat → Option Dec
  | coef, 0 => if coef ≤ maxCoef then some ⟨neg ∧ coef ≠ 0, coef, 0⟩ else none
  | coef, s + 1 =>
    if coef ≤ maxCoef ∧ s + 1 ≤ maxScale then some ⟨neg ∧ coef ≠ 0, coef, s + 1⟩
    else fitDec neg (roundTenNat coef) s

/-- The exact sum of two decimals, as an integer at their common
(larger) scale. -/
def Dec.sumInt (d e : Dec) : Int :=
  d.sval * (10 : Int) ^ (max d.scale e.scale - d.scale) +
    e.sval * (10 : Int) ^ (max d.scale e.scale - e.scale)

/-- `decimal.Decimal.Add`: exact sum at the larger scale, rounded to fit
19 digits; `none` models the overflow error (the Go call also yields the
zero decimal in that case, which callers substitute explicitly). -/
def Dec.Add (d e : Dec) : Option Dec :=
  fitDec (Dec.sumInt d e < 0) (Dec.sumInt d e).natAbs (max d.scale e.scale)

/-- `decimal.Decimal.Mul`: exact product at the sum of the scales,
rounded to fit; `none` models the overflow error. -/
def Dec.Mul (d e : Dec) : Option Dec :=
  let s : Int := d.sval * e.sval
  fitDec (s < 0) s.natAbs (d.scale + e.scale)

/-- `decimal.Decimal.QuoRem`: truncated integer quotient (scale 0) and
remainder (at the larger of the two scales), such that d = e*q + r.
`none` models division by zero or overflow. -/
def Dec.QuoRem (d e : Dec) : Option (Dec × Dec) :=
  if e.coef = 0 then none
  else
    let m := max d.scale e.scale
    let a : Int := d.sval * (10 : Int) ^ (m - d.scale)
    let b : Int := e.sval * (10 : Int) ^ (m - e.scale)
    let qn : Nat := a.natAbs / b.natAbs
    let q : Int := (if (a < 0 ∧ 0 ≤ b) ∨ (0 ≤ a ∧ b < 0) then -(qn : Int) else (qn : Int))
    let r : Int := a - q * b
    if qn ≤ maxCoef ∧ r.natAbs ≤ maxCoef then
      some (⟨decide (q < 0), qn, 0⟩, ⟨decide (r < 0), r.natAbs, m⟩)
    else none

/-- The decimal with the given signed coefficient and scale.  This is
what the arithmetic above produces whenever no rounding is needed. -/
def mkDec (v : Int) (s : Nat) : Dec := ⟨decide (v < 0), v.natAbs, s⟩

/-- Auxiliary recursion for `Dec.Trim`. -/
def trimRec (neg : Bool) (coef : Nat) : Nat → Nat → Dec
  | 0, _ => ⟨neg, coef, 0⟩
  | s + 1, min =>
    if min < s + 1 ∧ coef % 10 = 0 then trimRec neg (coef / 10) s min
    else ⟨neg, coef, s + 1⟩

/-- `decimal.Decimal.Trim`: removes trailing zero digits of the fraction
down to (at least) the given scale. -/
def Dec.Trim (d : Dec) (min : Nat) : Dec := trimRec d.neg d.coef d.scale min

/-- Digit to character, as in Go's `strconv` rendering. -/
def digitChar (d : Nat) : Char := Char.ofNat (48 + d)

/-- Decimal rendering of a natural number (most significant digit first,
`"0"` for zero). -/
def natToChars (n : Nat) : List Char :=
  if n = 0 then ['0'] else (natDigitsRev n).reverse.map digitChar

/-- Rendering of a natural number left-padded with zeros to `len` digits
(used for the fractional part, which prints exactly `scale` digits). -/
def natToCharsPadded (n len : Nat) : List Char :=
  List.replicate (len - (natDigitsRev n).length) '0' ++ (natDigitsRev n).reverse.map digitChar

/-- `decimal.Decimal.String`: sign, integer digits, and — when the scale
is positive — a point followed by exactly `scale` fractional digits. -/
def Dec.toChars (d : Dec) : List Char :=
  (if d.neg then ['-'] else []) ++
    (if d.scale = 0 then natToChars d.coef
     else natToChars (d.coef / 10 ^ d.scale) ++ '.' :: natToCharsPadded (d.coef % 10 ^ d.scale) d.scale)

/-- Is this an ASCII digit? -/
def isDigitChar (c : Char) : Bool := '0' ≤ c ∧ c ≤ '9'

/-- Numeric value of a most-significant-first digit string. -/
def charsToNat (l : List Char) : Nat :=
  l.foldl (fun a c => 10 * a + (c.toNat - 48)) 0

/-- Unsigned part of `decimal.Parse` on the character strings the period
parser hands over (sign, digits, optional point and digits); values with
more than 19 digits are rounded/rejected by `fitDec` as in the library. -/
def decParseUnsigned (neg : Bool) (l : List Char) : Option Dec :=
  let ip := l.takeWhile isDigitChar
  let rest := l.dropWhile isDigitChar
  match rest with
  | [] => if ip = [] then none else fitDec neg (charsToNat ip) 0
  | c :: fp =>
    if c = '.' then
      if fp.all isDigitChar ∧ (ip ≠ [] ∨ fp ≠ []) then
        fitDec neg (charsToNat (ip ++ fp)) fp.length
      else none
    else none

/-- `decimal.Parse`, on the inputs producible by `scanDigits` (ASCII
sign/digits/point; the scanner has already mapped commas to points). -/
def Dec.Parse : List Char → Option Dec
  | [] => none
  | c :: rest =>
    if c = '-' then decParseUnsigned true rest
    else if c = '+' then decParseUnsigned false rest
    else decParseUnsigned false (c :: rest)

/-- `designator`: the seven unit letters (from `designator.go`). -/
inductive Designator where
  | Year | Month | Week | Day | Hour | Minute | Second
deriving DecidableEq

/-- `designator.Byte`: the letter of each designator. -/
def Designator.Byte : Designator → Char
  | .Year => 'Y'
  | .Month => 'M'
  | .Week => 'W'
  | .Day => 'D'
  | .Hour => 'H'
  | .Minute => 'M'
  | .Second => 'S'

/-- `asDesignator`: which designator a letter denotes; `M` is month in the
date section and minute in the time section. `none` models the error. -/
def asDesignator (d : Char) (isHMS : Bool) : Option Designator :=
  if d = 'S' then some .Second
  else if d = 'H' then some .Hour
  else if d = 'D' then some .Day
  else if d = 'W' then some .Week
  else if d = 'Y' then some .Year
  else if d = 'M' then (if isHMS then some .Minute else some .Month)
  else none

/-- `Period64` (`period64.go`; identical to the later `Period` struct):
seven decimal fields plus an overall negative flag that negates them all. -/
structure Period64 where
  years : Dec
  months : Dec
  weeks : Dec
  days : Dec
  hours : Dec
  minutes : Dec
  seconds : Dec
  neg : Bool
deriving DecidableEq

/-- `Zero`, the zero period. -/
def Period64.Zero : Period64 :=
  ⟨Dec.zero, Dec.zero, Dec.zero, Dec.zero, Dec.zero, Dec.zero, Dec.zero, false⟩

/-- `Period64.IsZero`. -/
def Period64.IsZero (period : Period64) : Bool :=
  decide ({ period with neg := false } = Period64.Zero)

/-- `Period64.Sign`: 1 positive, -1 negative, 0 zero. -/
def Period64.Sign (period : Period64) : Int :=
  if period.neg then -1 else if period ≠ Period64.Zero then 1 else 0

/-- `Period64.Negate`: changes the sign; zero is not altered. -/
def Period64.Negate (period : Period64) : Period64 :=
  if period.IsZero then Period64.Zero else { period with neg := !period.neg }

/-- `Period64.Abs`. -/
def Period64.Abs (period : Period64) : Period64 := { period with neg := false }

/-- `negateAllFields`: negates every field (the flag is untouched). -/
def Period64.negateAllFields (period : Period64) : Period64 :=
  { period with
    years := period.years.Neg
    months := period.months.Neg
    weeks := period.weeks.Neg
    days := period.days.Neg
    hours := period.hours.Neg
    minutes := period.minutes.Neg
    seconds := period.seconds.Neg }

/-- `flipSign`: toggles the flag and negates every field. -/
def Period64.flipSign (period : Period64) : Period64 :=
  ({ period with neg := !period.neg }).negateAllFields

/-- `Period64.NormaliseSign` (`normalise.go`): flips all the signs so that
the most significant non-zero field is positive; an all-zero period
becomes the canonical `Zero`. -/
def Period64.NormaliseSign (period : Period64) : Period64 :=
  if 0 < period.years.Sign then period
  else if period.years.Sign < 0 then period.flipSign
  else if 0 < period.months.Sign then period
  else if period.months.Sign < 0 then period.flipSign
  else if 0 < period.weeks.Sign then period
  else if period.weeks.Sign < 0 then period.flipSign
  else if 0 < period.days.Sign then period
  else if period.days.Sign < 0 then period.flipSign
  else if 0 < period.hours.Sign then period
  else if period.hours.Sign < 0 then period.flipSign
  else if 0 < period.minutes.Sign then period
  else if period.minutes.Sign < 0 then period.flipSign
  else if 0 < period.seconds.Sign then period
  else if period.seconds.Sign < 0 then period.flipSign
  else Period64.Zero

/-- `moveWholePartsLeft` (`normalise.go`): carry whole multiples of `n`
from the smaller field into the larger one; on any arithmetic error, or
when the remainder would be no simpler, both fields are unchanged. -/
def moveWholePartsLeft (larger smaller : Dec) (n : Int) : Dec × Dec :=
  if smaller.IsZero then (larger, smaller)
  else
    let nd : Dec := ⟨decide (n < 0), n.natAbs, 0⟩
    match smaller.QuoRem nd with
    | none => (larger, smaller)
    | some (q, r) =>
      if ¬ r.IsZero ∧ r.Prec ≤ r.Scale then (larger, smaller)
      else
        match larger.Add q with
        | none => (larger, smaller)
        | some l2 => (l2, r)

/-- `Period64.Normalise`: ripple large values towards the more significant
fields; hours move into days only in imprecise mode. -/
def Period64.Normalise (period : Period64) (precise : Bool) : Period64 :=
  let r1 := moveWholePartsLeft period.minutes period.seconds 60
  let r2 := moveWholePartsLeft period.hours r1.1 60
  let r3 := if precise then (period.days, r2.1) else moveWholePartsLeft period.days r2.1 24
  let r4 := moveWholePartsLeft period.weeks r3.1 7
  let r5 := moveWholePartsLeft period.years period.months 12
  { period with
    years := r5.1
    months := r5.2
    weeks := r4.1
    days := r4.2
    hours := r3.2
    minutes := r2.2
    seconds := r1.2 }

/-- `isSimple` (`normalise.go`). -/
def isSimple (larger smaller : Dec) : Bool := smaller.IsZero ∧ larger.Scale = 0

/-- `moveToRight` (`normalise.go`): fold the larger field into the smaller
one, unless the pair is already simple or this would need more digits. -/
def moveToRight (larger smaller : Dec) (n : Int) : Dec × Dec :=
  if larger.IsZero ∨ isSimple larger smaller then (larger, smaller)
  else
    let r1 := moveWholePartsLeft larger smaller n
    if isSimple r1.1 r1.2 then r1
    else
      let nd : Dec := ⟨decide (n < 0), n.natAbs, 0⟩
      match larger.Mul nd with
      | none => (larger, smaller)
      | some extra =>
        match smaller.Add extra with
        | none => (larger, smaller)
        | some sm2 =>
          let sm2t := sm2.Trim 0
          if larger.Prec + smaller.Prec < sm2t.Prec then (larger, smaller)
          else (Dec.zero, sm2t)

/-- `Period64.Simplify`: ripple values towards the less significant
fields; days move into hours only in imprecise mode. -/
def Period64.Simplify (period : Period64) (precise : Bool) : Period64 :=
  let r1 := moveToRight period.years period.months 12
  let r2 := moveToRight period.weeks period.days 7
  let r3 := if precise then (r2.2, period.hours) else moveToRight r2.2 period.hours 24
  let r4 := moveToRight r3.2 period.minutes 60
  let r5 := moveToRight r4.2 period.seconds 60
  { period with
    years := r1.1
    months := r1.2
    weeks := r2.1
    days := r3.1
    hours := r4.1
    minutes := r5.1
    seconds := r5.2 }

/-- The raw fieldwise sums of `Period.Add` (`arithmetic.go`), before
normalisation: a failed field addition contributes the zero decimal, as
in Go, where the errored `decimal.Add` call returns `Decimal{}`. -/
def Period64.addFields (left right : Period64) : Period64 :=
  ⟨(left.years.Add right.years).getD Dec.zero, (left.months.Add right.months).getD Dec.zero,
   (left.weeks.Add right.weeks).getD Dec.zero, (left.days.Add right.days).getD Dec.zero,
   (left.hours.Add right.hours).getD Dec.zero, (left.minutes.Add right.minutes).getD Dec.zero,
   (left.seconds.Add right.seconds).getD Dec.zero, false⟩

/-- Whether every field addition of `Period.Add` succeeded
(`errors.Join(e1,...,e7) == nil`). -/
def Period64.addOk (left right : Period64) : Bool :=
  (left.years.Add right.years).isSome ∧ (left.months.Add right.months).isSome ∧
    (left.weeks.Add right.weeks).isSome ∧ (left.days.Add right.days).isSome ∧
    (left.hours.Add right.hours).isSome ∧ (left.minutes.Add right.minutes).isSome ∧
    (left.seconds.Add right.seconds).isSome

/-- The `left`/`right` preparation of `Period.Add`: a negative period has
its flag folded into the fields. -/
def Period64.flatten (period : Period64) : Period64 :=
  if period.neg then period.flipSign else period

/-- `Period.Add`, continued: flatten, add fieldwise (`addFields`),
`Normalise(true)`, `NormaliseSign`. -/
def Period64.Add (period other : Period64) : Period64 × Bool :=
  (((period.flatten.addFields other.flatten).Normalise true).NormaliseSign,
   period.flatten.addOk other.flatten)

/-- `Period.Subtract`: adds the negated period. -/
def Period64.Subtract (period other : Period64) : Period64 × Bool :=
  period.Add other.Negate

/-- `Period.Mul` (`arithmetic.go`): multiplies each non-zero field by the
factor (trimming trailing zeros), keeps the flag verbatim, then
`NormaliseSign`.  The boolean is `true` when no multiplication
overflowed; a failed multiplication contributes the zero decimal. -/
def Period64.Mul (period : Period64) (factor : Dec) : Period64 × Bool :=
  let years := if period.years.Coef ≠ 0 then period.years.Mul factor else some Dec.zero
  let months := if period.months.Coef ≠ 0 then period.months.Mul factor else some Dec.zero
  let weeks := if period.weeks.Coef ≠ 0 then period.weeks.Mul factor else some Dec.zero
  let days := if period.days.Coef ≠ 0 then period.days.Mul factor else some Dec.zero
  let hours := if period.hours.Coef ≠ 0 then period.hours.Mul factor else some Dec.zero
  let minutes := if period.minutes.Coef ≠ 0 then period.minutes.Mul factor else some Dec.zero
  let seconds := if period.seconds.Coef ≠ 0 then period.seconds.Mul factor else some Dec.zero
  let result : Period64 :=
    ⟨(years.getD Dec.zero).Trim 0, (months.getD Dec.zero).Trim 0, (weeks.getD Dec.zero).Trim 0,
     (days.getD Dec.zero).Trim 0, (hours.getD Dec.zero).Trim 0, (minutes.getD Dec.zero).Trim 0,
     (seconds.getD Dec.zero).Trim 0, period.neg⟩
  (result.NormaliseSign,
   years.isSome ∧ months.isSome ∧ weeks.isSome ∧ days.isSome ∧
     hours.isSome ∧ minutes.isSome ∧ seconds.isSome)

/-- Two's-complement wrap of Go `int64` arithmetic. -/
def wrap64 (n : Int) : Int := (n + 2 ^ 63) % 2 ^ 64 - 2 ^ 63

/-- The loop `for i := field.Scale(); i > 0; i-- { factor /= 10 }`:
repeated truncated division of an `int64` by ten. -/
def divTenLoop : Int → Nat → Int
  | f, 0 => f
  | f, s + 1 => divTenLoop (f.tdiv 10) s

/-- `secondsPerDay` (assuming a 24-hour day). -/
def secondsPerDay : Int := 24 * 60 * 60

/-- `daysPerYearE6`: 365.2425 days per year by the Gregorian rule, e6. -/
def daysPerYearE6 : Int := 365242500

/-- `daysPerMonthE6`: one twelfth of `daysPerYearE6`. -/
def daysPerMonthE6 : Int := daysPerYearE6 / 12

/-- `oneE3`. -/
def oneE3 : Int := 1000

/-- `oneE9`. -/
def oneE9 : Int := 1000000000

/-- `fieldDuration` (`normalise.go`): the contribution of one decimal
field given its conversion factor in nanoseconds; the factor is divided
by ten once per digit of scale, and a factor reduced to zero contributes
nothing.  The multiplications wrap like Go `int64`. -/
def fieldDuration (field : Dec) (factor : Int) : Int :=
  if field.Coef = 0 then 0
  else
    let f := divTenLoop factor field.Scale
    if f ≠ 0 then wrap64 (wrap64 (field.Sign * wrap64 (field.Coef : Int)) * f) else 0

/-- `totalDaysApproxE9`: day-equivalent (times 10^9) of the year, month,
week and day fields. -/
def totalDaysApproxE9 (period : Period64) : Int :=
  let dd := fieldDuration period.days oneE9
  let ww := fieldDuration period.weeks (7 * oneE9)
  let mm := fieldDuration period.months (daysPerMonthE6 * oneE3)
  let yy := fieldDuration period.years (daysPerYearE6 * oneE3)
  wrap64 (wrap64 (wrap64 (dd + ww) + mm) + yy)

/-- `totalSeconds`: nanoseconds of the hour, minute and second fields. -/
def totalSeconds (period : Period64) : Int :=
  let hh := fieldDuration period.hours (3600 * oneE9)
  let mm := fieldDuration period.minutes (60 * oneE9)
  let ss := fieldDuration period.seconds oneE9
  wrap64 (wrap64 (hh + mm) + ss)

/-- `Period64.Duration`: the period as elapsed nanoseconds, plus a flag
that is `true` exactly when the year/month/week/day term is zero. -/
def Period64.Duration (period : Period64) : Int × Bool :=
  let sign := period.Sign
  let tdE9 := wrap64 (totalDaysApproxE9 period * secondsPerDay)
  let stE9 := totalSeconds period
  (wrap64 (sign * wrap64 (tdE9 + stE9)), tdE9 = 0)

/-- `writeField` (`period64.go`): a non-zero field prints as its decimal
rendering followed by its designator letter; a zero field is omitted. -/
def writeFieldChars (field : Dec) (des : Designator) : List Char :=
  if field.Coef ≠ 0 then field.toChars ++ [des.Byte] else []

/-- `Period64.String`/`WriteTo` (`period64.go`): the canonical rendering.
Zero renders as `P0D`; otherwise an optional minus, `P`, the non-zero
date fields, and — when any time field is non-zero — `T` and the
non-zero time fields. -/
def Period64.toChars (period : Period64) : List Char :=
  if period = Period64.Zero then ['P', '0', 'D']
  else
    (if period.neg then ['-'] else []) ++
      'P' :: (writeFieldChars period.years .Year ++ writeFieldChars period.months .Month ++
        writeFieldChars period.weeks .Week ++ writeFieldChars period.days .Day ++
        (if period.hours.Coef = 0 ∧ period.minutes.Coef = 0 ∧ period.seconds.Coef = 0 then []
         else 'T' :: (writeFieldChars period.hours .Hour ++
           writeFieldChars period.minutes .Minute ++ writeFieldChars period.seconds .Second)))

/-- Alias so that the rendering method below can keep its Go name
(`String`) while still stating its result type. -/
abbrev GoString := String

/-- `Period64.String` as a Lean string. -/
def Period64.String (period : Period64) : GoString := ⟨period.toChars⟩

/-- Result of `scanDigits` (`parse.go`): the collected number and the
index of the character that stopped the scan, or one of the two
failure codes. -/
inductive ScanResult where
  | found (number : List Char) (i : Nat)
  | noNumber
  | allNumeric
deriving DecidableEq

/-- The scanning loop of `scanDigits`: a minus is accepted only as the
very first character, commas become points, digits accumulate; the scan
stops at the first other character (failing when nothing was read). -/
def scanDigitsAux : List Char → Nat → List Char → ScanResult
  | [], _, _ => .allNumeric
  | c :: cs, i, number =>
    if i = 0 ∧ c = '-' then scanDigitsAux cs (i + 1) (number ++ [c])
    else if c = '.' ∨ c = ',' then scanDigitsAux cs (i + 1) (number ++ ['.'])
    else if '0' ≤ c ∧ c ≤ '9' then scanDigitsAux cs (i + 1) (number ++ [c])
    else if 0 < number.length then .found number i
    else .noNumber

/-- `scanDigits` (the `part_014` version). -/
def scanDigits (s : List Char) : ScanResult := scanDigitsAux s 0 []

/-- `parseNextField`: scan a number, parse it as a decimal, read the
designator letter that stopped the scan, and return the rest.  `none`
covers every error (including the `decimal.Parse` panic branch, which is
unreachable for well-formed number strings). -/
def parseNextField (str : List Char) (isHMS : Bool) : Option (Dec × Designator × List Char) :=
  match scanDigits str with
  | .noNumber => none
  | .allNumeric => none
  | .found number i =>
    match Dec.Parse number with
    | none => none
    | some dec =>
      match str.drop i with
      | [] => none
      | t :: rest =>
        match asDesignator t isHMS with
        | none => none
        | some des => some (dec, des, rest)

/-- `itemState` (`parse.go`). -/
inductive ItemState where
  | Unready
  | Armed
  | Set
deriving DecidableEq

/-- The local state of `Period64.Parse`: one `itemState` per designator,
the period being built, the fraction tracker and the `T` flag. -/
structure ParseState where
  years : ItemState
  months : ItemState
  weeks : ItemState
  days : ItemState
  hours : ItemState
  minutes : ItemState
  seconds : ItemState
  p : Period64
  haveFraction : Bool
  isHMS : Bool
  nComponents : Nat
deriving DecidableEq

/-- `testAndSet` dispatched over the designator switch: a designator can
be consumed only while `Armed`, and stores its number in its field. -/
def setField (st : ParseState) (des : Designator) (number : Dec) : Option ParseState :=
  match des with
  | .Year => match st.years with
    | .Armed => some { st with years := .Set, p := { st.p with years := number } }
    | _ => none
  | .Month => match st.months with
    | .Armed => some { st with months := .Set, p := { st.p with months := number } }
    | _ => none
  | .Week => match st.weeks with
    | .Armed => some { st with weeks := .Set, p := { st.p with weeks := number } }
    | _ => none
  | .Day => match st.days with
    | .Armed => some { st with days := .Set, p := { st.p with days := number } }
    | _ => none
  | .Hour => match st.hours with
    | .Armed => some { st with hours := .Set, p := { st.p with hours := number } }
    | _ => none
  | .Minute => match st.minutes with
    | .Armed => some { st with minutes := .Set, p := { st.p with minutes := number } }
    | _ => none
  | .Second => match st.seconds with
    | .Armed => some { st with seconds := .Set, p := { st.p with seconds := number } }
    | _ => none

/-- The main loop of `Period64.Parse`: handles the `T` marker (arming the
time designators and retiring the date ones), field parsing, the
only-the-last-field-may-have-a-fraction rule, and finally the
`nComponents` check followed by `NormaliseSign`.  The fuel argument only
bounds the recursion; the loop consumes at least one character per
iteration, so any fuel above the input length is enough. -/
def parseLoop (st : ParseState) : List Char → Nat → Option Period64
  | [], _ => if st.nComponents = 0 then none else some st.p.NormaliseSign
  | _ :: _, 0 => none
  | c :: cs, fuel + 1 =>
    if c = 'T' then
      if st.isHMS then none
      else
        parseLoop
          { st with
            years := .Unready
            months := .Unready
            weeks := .Unready
            days := .Unready
            hours := .Armed
            minutes := .Armed
            seconds := .Armed
            isHMS := true }
          cs fuel
    else
      match parseNextField (c :: cs) st.isHMS with
      | none => none
      | some (number, des, rest) =>
        if st.haveFraction ∧ number.Coef ≠ 0 then none
        else
          match setField st des number with
          | none => none
          | some st2 =>
            let st3 := { st2 with nComponents := st2.nComponents + 1 }
            let st4 := if 0 < number.Scale then { st3 with haveFraction := true } else st3
            parseLoop st4 rest fuel

/-- The seven special-cased zero spellings. -/
def zeroForms : List (List Char) :=
  [['P', '0', 'Y'], ['P', '0', 'M'], ['P', '0', 'W'], ['P', '0', 'D'],
   ['P', 'T', '0', 'H'], ['P', 'T', '0', 'M'], ['P', 'T', '0', 'S']]

/-- The initial parse state: date designators armed, time designators
unready, the building period carrying the overall sign. -/
def initState (neg : Bool) : ParseState :=
  ⟨.Armed, .Armed, .Armed, .Armed, .Unready, .Unready, .Unready,
   { Period64.Zero with neg := neg }, false, false, 0⟩

/-- `Period64.Parse` (`part_014`): strip an optional sign, special-case
the zero forms, require the `P` marker, and run the loop. -/
def Period64.ParseChars (isoPeriod : List Char) : Option Period64 :=
  if isoPeriod = [] then none
  else
    let neg : Bool := isoPeriod.head? = some '-'
    let remaining :=
      if isoPeriod.head? = some '-' ∨ isoPeriod.head? = some '+' then isoPeriod.tail
      else isoPeriod
    if remaining ∈ zeroForms then some Period64.Zero
    else if remaining = [] then none
    else
      match remaining with
      | [] => none
      | c :: rest => if c = 'P' then parseLoop (initState neg) rest (rest.length + 1) else none

/-- `Period64.Parse` on a Lean string. -/
def Period64.Parse (s : GoString) : Option Period64 := Period64.ParseChars s.data

/-- The seven fields of a period, most significant first — the scanning
order of `NormaliseSign`. -/
def Period64.fieldsList (period : Period64) : List Dec :=
  [period.years, period.months, period.weeks, period.days,
   period.hours, period.minutes, period.seconds]

/-- Well-formedness of a period: every field is a well-formed decimal. -/
def Period64.wf (period : Period64) : Prop :=
  ∀ d ∈ period.fieldsList, d.wf

instance (period : Period64) : Decidable period.wf := by
  unfold Period64.wf
  infer_instance

/-- The sign of the first field with a non-zero sign (0 when all seven
are zero): the quantity `NormaliseSign` branches on. -/
def firstSign : List Dec → Int
  | [] => 0
  | d :: rest => if d.Sign = 0 then firstSign rest else d.Sign

/-- Does at most the last non-zero entry carry a fraction?  (A non-zero
entry with a positive scale must be followed by zero-valued entries
only.)  This is the condition under which the parser accepts the
formatter's output of a period. -/
def fracLastList : List Dec → Bool
  | [] => true
  | d :: rest =>
    if d.coef ≠ 0 ∧ 0 < d.scale then rest.all (fun e => e.coef = 0)
    else fracLastList rest

/-- The fraction-placement condition, on a period's fields. -/
def Period64.fracLast (period : Period64) : Bool := fracLastList period.fieldsList

/-- Replace zero-valued fields by the canonical zero decimal (the parser
cannot see the scale of a field the formatter did not print). -/
def canonZeroDec (d : Dec) : Dec := if d.coef = 0 then Dec.zero else d

/-- `canonZeroDec` over all seven fields. -/
def Period64.canonZeros (period : Period64) : Period64 :=
  { period with
    years := canonZeroDec period.years
    months := canonZeroDec period.months
    weeks := canonZeroDec period.weeks
    days := canonZeroDec period.days
    hours := canonZeroDec period.hours
    minutes := canonZeroDec period.minutes
    seconds := canonZeroDec period.seconds }

set_option maxRecDepth 400000

/-- `Int.tdiv` agrees with Euclidean division on non-negative numerators:
helper for the `fieldDuration` factor loop. -/
theorem tdiv_ten_nonneg (f : Int) (h : 0 ≤ f) : f.tdiv 10 = f / 10 :=
  Int.tdiv_eq_ediv h (by norm_num)

/-- Repeatedly dividing a non-negative `int64` smaller than `10^s` by ten,
`s` times, yields zero. -/
theorem divTenLoop_eq_zero : ∀ (s : Nat) (f : Int), 0 ≤ f → f < 10 ^ s → divTenLoop f s = 0 := by
  intro s
  induction s with
  | zero =>
    intro f h0 h1
    have h1' : f < 1 := by simpa using h1
    have : f = 0 := by omega
    simpa [divTenLoop] using this
  | succ n ih =>
    intro f h0 h1
    have hts : f.tdiv 10 = f / 10 := tdiv_ten_nonneg f h0
    have hpow : (10 : Int) ^ (n + 1) = 10 * 10 ^ n := by ring
    have h2 : f / 10 < 10 ^ n := by
      rw [hpow] at h1
      omega
    have h3 : 0 ≤ f / 10 := by omega
    show divTenLoop (f.tdiv 10) n = 0
    rw [hts]
    exact ih (f / 10) h3 h2

/-- C10: in `Duration`, a non-zero field whose decimal scale exceeds the
number of decimal digits of its nanosecond conversion factor contributes
exactly zero, because the factor is integer-divided down to 0; e.g.
`PT0.0000000001S` (ten fractional digits, finer than one nanosecond)
converts to duration 0 with the precise flag true. -/
theorem c10_subnano_contributes_zero :
    (∀ (field : Dec) (factor : Int), 0 ≤ factor → factor < 10 ^ field.Scale →
      fieldDuration field factor = 0) ∧
    Period64.Parse ("PT0.0000000001S") = some { Period64.Zero with seconds := ⟨false, 1, 10⟩ } ∧
    Period64.Duration { Period64.Zero with seconds := ⟨false, 1, 10⟩ } = (0, true) := by
  refine ⟨?_, by decide, by decide⟩
  intro field factor h0 h1
  unfold fieldDuration
  by_cases hc : field.Coef = 0
  · simp [hc]
  · have hz : divTenLoop factor field.Scale = 0 := divTenLoop_eq_zero field.Scale factor h0 h1
    simp [hc, hz]

/-- C10 witness: the general statement applied to the seconds field of
`PT0.0000000001S` and the nanosecond factor `10^9`. -/
theorem c10_witness : fieldDuration ⟨false, 1, 10⟩ (10 ^ 9) = 0 :=
  c10_subnano_contributes_zero.1 ⟨false, 1, 10⟩ (10 ^ 9) (by norm_num) (by norm_num [Dec.Scale])

/-- C3 counterexample: the claim's "precise iff the period is expressed
purely in hours/minutes/seconds" fails: `P0.0000000001D` has a non-zero
days field, yet its duration conversion returns the precise flag true
(its day contribution is integer-truncated to zero). -/
theorem c3_cex_subnano_day :
    Period64.Parse ("P0.0000000001D") = some { Period64.Zero with days := ⟨false, 1, 10⟩ } ∧
    Period64.Duration { Period64.Zero with days := ⟨false, 1, 10⟩ } = (0, true) ∧
    ({ Period64.Zero with days := ⟨false, 1, 10⟩ } : Period64).days.Coef ≠ 0 := by
  refine ⟨by decide, by decide, by decide⟩

/-- C3 (amended): the precise flag of `Duration` is true iff the computed
year/month/week/day contribution to the duration (the day-equivalent
total converted to nanoseconds, in wrapped `int64` arithmetic) is exactly
zero.  Zero year/month/week/day fields imply this, but the converse
fails.  `Duration(PT1H) = (1 hour, true)`; `Duration(P1D) = (24 hours,
false)`. -/
theorem c3_duration_precise_flag :
    (∀ p : Period64,
      (p.Duration).2 = true ↔ wrap64 (totalDaysApproxE9 p * secondsPerDay) = 0) ∧
    Period64.Parse ("PT1H") = some { Period64.Zero with hours := ⟨false, 1, 0⟩ } ∧
    Period64.Duration { Period64.Zero with hours := ⟨false, 1, 0⟩ } = (3600 * 1000000000, true) ∧
    Period64.Parse ("P1D") = some { Period64.Zero with days := ⟨false, 1, 0⟩ } ∧
    Period64.Duration { Period64.Zero with days := ⟨false, 1, 0⟩ } = (24 * 3600 * 1000000000, false) := by
  refine ⟨?_, by decide, by decide, by decide, by decide⟩
  intro p
  simp [Period64.Duration]

/-- C4: `Normalise` ripples hours into days (divisor 24) only in
imprecise mode — `PT48H` is unchanged in precise mode and becomes `P2D`
in imprecise mode — while the seconds→minutes, minutes→hours, days→weeks
and months→years ripples happen in both modes. -/
theorem c4_normalise_modes :
    (Period64.Parse ("PT48H")).map (fun p => p.Normalise true) = Period64.Parse ("PT48H") ∧
    (Period64.Parse ("PT48H")).map (fun p => p.Normalise false) = Period64.Parse ("P2D") ∧
    (∀ b : Bool,
      (Period64.Parse ("PT120S")).map (fun p => p.Normalise b) = Period64.Parse ("PT2M") ∧
      (Period64.Parse ("PT120M")).map (fun p => p.Normalise b) = Period64.Parse ("PT2H") ∧
      (Period64.Parse ("P14D")).map (fun p => p.Normalise b) = Period64.Parse ("P2W") ∧
      (Period64.Parse ("P24M")).map (fun p => p.Normalise b) = Period64.Parse ("P2Y")) := by
  refine ⟨by decide, by decide, ?_⟩
  decide

/-- C5: `Mul` multiplies each non-zero field by the factor, keeps the
overall sign flag verbatim on the intermediate result, and only then
canonicalises the sign, so a negative factor flips the canonical sign:
`mul(P2Y4M6W8D, -0.5) = -P1Y2M3W4D`. -/
theorem c5_mul_negative_factor :
    (Period64.Parse ("P2Y4M6W8D")).map (fun p => (p.Mul ⟨true, 5, 1⟩).1) =
      Period64.Parse ("-P1Y2M3W4D") ∧
    Period64.Parse ("-P1Y2M3W4D") =
      some
        { Period64.Zero with
          years := ⟨false, 1, 0⟩
          months := ⟨false, 2, 0⟩
          weeks := ⟨false, 3, 0⟩
          days := ⟨false, 4, 0⟩
          neg := true } ∧
    (∀ (p : Period64) (f : Dec), ∃ raw : Period64,
      raw.neg = p.neg ∧ (p.Mul f).1 = raw.NormaliseSign) := by
  refine ⟨by decide, by decide, ?_⟩
  intro p f
  exact ⟨⟨((if p.years.Coef ≠ 0 then p.years.Mul f else some Dec.zero).getD Dec.zero).Trim 0,
    ((if p.months.Coef ≠ 0 then p.months.Mul f else some Dec.zero).getD Dec.zero).Trim 0,
    ((if p.weeks.Coef ≠ 0 then p.weeks.Mul f else some Dec.zero).getD Dec.zero).Trim 0,
    ((if p.days.Coef ≠ 0 then p.days.Mul f else some Dec.zero).getD Dec.zero).Trim 0,
    ((if p.hours.Coef ≠ 0 then p.hours.Mul f else some Dec.zero).getD Dec.zero).Trim 0,
    ((if p.minutes.Coef ≠ 0 then p.minutes.Mul f else some Dec.zero).getD Dec.zero).Trim 0,
    ((if p.seconds.Coef ≠ 0 then p.seconds.Mul f else some Dec.zero).getD Dec.zero).Trim 0,
    p.neg⟩, rfl, rfl⟩

/-- C6: the seven zero spellings, optionally prefixed with `+` or `-`,
all parse to the canonical zero, and the zero period always formats as
`P0D`. -/
theorem c6_zero_equivalence :
    (["P0Y", "P0M", "P0W", "P0D", "PT0H", "PT0M", "PT0S",
      "+P0Y", "+P0M", "+P0W", "+P0D", "+PT0H", "+PT0M", "+PT0S",
      "-P0Y", "-P0M", "-P0W", "-P0D", "-PT0H", "-PT0M", "-PT0S"].all
        (fun s => Period64.Parse s == some Period64.Zero)) = true ∧
    Period64.String Period64.Zero = ("P0D") := by
  refine ⟨by decide, by decide⟩

/-- C7: an overall leading minus and a field-local minus cancel:
`parse("-P-1Y") = parse("P1Y")`, one positive year. -/
theorem c7_double_negative :
    Period64.Parse ("-P-1Y") = Period64.Parse ("P1Y") ∧
    Period64.Parse ("P1Y") = some { Period64.Zero with years := ⟨false, 1, 0⟩ } := by
  refine ⟨by decide, by decide⟩

/-- C9: `Normalise` and `Simplify` never change the overall negative
flag, in either precise mode: they rewrite only the seven field values. -/
theorem c9_normalise_simplify_keep_neg :
    ∀ (p : Period64) (precise : Bool),
      (p.Normalise precise).neg = p.neg ∧ (p.Simplify precise).neg = p.neg :=
  fun _ _ => ⟨rfl, rfl⟩

/-- Unfolding lemma for `firstSign`. -/
theorem firstSign_cons (d : Dec) (l : List Dec) :
    firstSign (d :: l) = if d.Sign = 0 then firstSign l else d.Sign := rfl

/-- A decimal's sign is -1, 0 or 1. -/
theorem Dec.sign_trichotomy (d : Dec) : d.Sign = -1 ∨ d.Sign = 0 ∨ d.Sign = 1 := by
  unfold Dec.Sign
  split_ifs <;> simp

/-- Negating a decimal negates its sign. -/
theorem Dec.Sign_Neg (d : Dec) : d.Neg.Sign = -d.Sign := by
  unfold Dec.Neg Dec.Sign
  rcases h : d.neg <;> by_cases hc : d.coef = 0 <;> simp [h, hc]

/-- `flipSign` negates every field (in scanning order). -/
theorem fieldsList_flipSign (p : Period64) :
    p.flipSign.fieldsList = p.fieldsList.map Dec.Neg := rfl

/-- `firstSign` is antitone under fieldwise negation. -/
theorem firstSign_map_neg (l : List Dec) : firstSign (l.map Dec.Neg) = -firstSign l := by
  induction l with
  | nil => simp [firstSign]
  | cons d t ih =>
    by_cases h : d.Sign = 0
    · simp [firstSign_cons, Dec.Sign_Neg, h, ih]
    · simp [firstSign_cons, Dec.Sign_Neg, h, ih]

/-- `NormaliseSign` branches on the sign of the first non-zero field. -/
theorem ns_eq_firstSign (p : Period64) :
    p.NormaliseSign =
      if 0 < firstSign p.fieldsList then p
      else if firstSign p.fieldsList < 0 then p.flipSign
      else Period64.Zero := by
  unfold Period64.NormaliseSign Period64.fieldsList
  rcases Dec.sign_trichotomy p.years with h1|h1|h1
  · simp [firstSign_cons, h1]
  · simp only [firstSign_cons, h1, if_true, if_pos]
    rcases Dec.sign_trichotomy p.months with h2|h2|h2
    · simp [firstSign_cons, h2]
    · simp only [firstSign_cons, h2, if_true, if_pos]
      rcases Dec.sign_trichotomy p.weeks with h3|h3|h3
      · simp [firstSign_cons, h3]
      · simp only [firstSign_cons, h3, if_true, if_pos]
        rcases Dec.sign_trichotomy p.days with h4|h4|h4
        · simp [firstSign_cons, h4]
        · simp only [firstSign_cons, h4, if_true, if_pos]
          rcases Dec.sign_trichotomy p.hours with h5|h5|h5
          · simp [firstSign_cons, h5]
          · simp only [firstSign_cons, h5, if_true, if_pos]
            rcases Dec.sign_trichotomy p.minutes with h6|h6|h6
            · simp [firstSign_cons, h6]
            · simp only [firstSign_cons, h6, if_true, if_pos]
              rcases Dec.sign_trichotomy p.seconds with h7|h7|h7
              · simp [firstSign_cons, h7]
              · simp [firstSign_cons, firstSign, h7]
              · simp [firstSign_cons, h7]
            · simp [firstSign_cons, h6]
          · simp [firstSign_cons, h5]
        · simp [firstSign_cons, h4]
      · simp [firstSign_cons, h3]
    · simp [firstSign_cons, h2]
  · simp [firstSign_cons, h1]

/-- C8: sign canonicalisation is idempotent: for every period (canonical
or not, including all-zero periods with the flag set),
`NormaliseSign (NormaliseSign p) = NormaliseSign p`. -/
theorem c8_normalise_sign_idempotent :
    ∀ p : Period64, (p.NormaliseSign).NormaliseSign = p.NormaliseSign := by
  intro p
  rcases lt_trichotomy (firstSign p.fieldsList) 0 with h|h|h
  · have e1 : p.NormaliseSign = p.flipSign := by
      rw [ns_eq_firstSign]
      rw [if_neg (by omega), if_pos h]
    have e2 : firstSign p.flipSign.fieldsList = -firstSign p.fieldsList := by
      rw [fieldsList_flipSign, firstSign_map_neg]
    rw [e1, ns_eq_firstSign (p.flipSign), e2, if_pos (by omega)]
  · have e1 : p.NormaliseSign = Period64.Zero := by
      rw [ns_eq_firstSign]
      rw [if_neg (by omega), if_neg (by omega)]
    rw [e1]
    decide
  · have e1 : p.NormaliseSign = p := by
      rw [ns_eq_firstSign, if_pos h]
    rw [e1, e1]

/-- Decimal negation is involutive. -/
theorem Dec.Neg_Neg (d : Dec) : d.Neg.Neg = d := by
  unfold Dec.Neg
  by_cases h : d.coef = 0 <;> simp [h]

/-- Negation does not change the coefficient. -/
theorem Dec.coef_Neg (d : Dec) : d.Neg.coef = d.coef := by
  unfold Dec.Neg
  by_cases h : d.coef = 0 <;> simp [h]

/-- Negation does not change the scale. -/
theorem Dec.scale_Neg (d : Dec) : d.Neg.scale = d.scale := by
  unfold Dec.Neg
  by_cases h : d.coef = 0 <;> simp [h]

/-- Negation negates the signed coefficient. -/
theorem Dec.sval_Neg (d : Dec) : d.Neg.sval = -d.sval := by
  unfold Dec.Neg Dec.sval
  by_cases h : d.coef = 0 <;> rcases hn : d.neg <;> simp [h, hn]

/-- The signed coefficient of `mkDec`. -/
theorem mkDec_sval (v : Int) (s : Nat) : (mkDec v s).sval = v := by
  unfold mkDec Dec.sval
  rcases hd : decide (v < 0) with _ | _ <;> simp at hd ⊢
  · omega
  · rw [abs_of_neg hd]
    ring

/-- The scale of `mkDec`. -/
theorem mkDec_scale (v : Int) (s : Nat) : (mkDec v s).scale = s := rfl

/-- The coefficient of `mkDec`. -/
theorem mkDec_coef (v : Int) (s : Nat) : (mkDec v s).coef = v.natAbs := rfl

/-- A decimal that is not a negative zero is `mkDec` of its own signed
coefficient and scale. -/
theorem mkDec_self (d : Dec) (h : d.coef = 0 → d.neg = false) :
    mkDec d.sval d.scale = d := by
  obtain ⟨n, c, s⟩ := d
  rcases n
  · unfold mkDec Dec.sval
    have h1 : ¬ ((c : Int) < 0) := by omega
    simp [h1]
  · have hc : c ≠ 0 := fun h0 => by simpa using h h0
    unfold mkDec Dec.sval
    have h1 : (-(c : Int)) < 0 := by omega
    simp [h1]

/-- `fitDec` needs no rounding when the coefficient and the scale both
fit. -/
theorem fitDec_fits (b : Bool) (coef s : Nat) (hc : coef ≤ maxCoef) (hs : s ≤ maxScale) :
    fitDec b coef s = some ⟨b ∧ coef ≠ 0, coef, s⟩ := by
  cases s with
  | zero => simp [fitDec, hc]
  | succ n => simp [fitDec, hc, hs]

/-- An exact decimal addition: when both scales fit and the exact sum
fits in 19 digits, `Add` returns exactly the sum at the common scale. -/
theorem Dec.Add_exact (d e : Dec) (hs : max d.scale e.scale ≤ maxScale)
    (hfit : (Dec.sumInt d e).natAbs ≤ maxCoef) :
    Dec.Add d e = some (mkDec (Dec.sumInt d e) (max d.scale e.scale)) := by
  unfold Dec.Add
  rw [fitDec_fits _ _ _ hfit hs]
  unfold mkDec
  congr 1
  by_cases hv : Dec.sumInt d e < 0
  · have h0 : (Dec.sumInt d e).natAbs ≠ 0 := by
      rw [Int.natAbs_ne_zero]
      omega
    simp [hv, h0]
  · simp [hv]

/-- `fitDec` of a zero magnitude: the scale is clamped, the result is a
(positive) zero whatever the sign flag was. -/
theorem fitDec_zero_coef : ∀ (s : Nat) (b : Bool), fitDec b 0 s = some ⟨false, 0, min s maxScale⟩ := by
  intro s
  induction s with
  | zero => intro b; simp [fitDec, maxCoef]
  | succ n ih =>
    intro b
    by_cases h : n + 1 ≤ maxScale
    · simp [fitDec, maxCoef, h, Nat.min_eq_left h]
    · have : roundTenNat 0 = 0 := by simp [roundTenNat]
      rw [show fitDec b 0 (n + 1) = fitDec b (roundTenNat 0) n by simp [fitDec, h], this, ih b]
      have : min (n + 1) maxScale = min n maxScale := by
        unfold maxScale at h ⊢
        omega
      rw [this]

/-- Mapping `Dec.Neg` over a `fitDec` result is the same as flipping the
requested sign flag. -/
theorem fitDec_map_neg : ∀ (s : Nat) (b : Bool) (coef : Nat),
    (fitDec b coef s).map Dec.Neg = fitDec (!b) coef s := by
  intro s
  induction s with
  | zero =>
    intro b coef
    by_cases hc : coef ≤ maxCoef
    · by_cases h0 : coef = 0
      · subst h0
        simp [fitDec, hc, Dec.Neg]
      · rcases b <;> simp [fitDec, hc, h0, Dec.Neg]
    · simp [fitDec, hc]
  | succ n ih =>
    intro b coef
    by_cases hfit : coef ≤ maxCoef ∧ n + 1 ≤ maxScale
    · by_cases h0 : coef = 0
      · subst h0
        simp [fitDec, hfit, Dec.Neg]
      · rcases b <;> simp [fitDec, hfit, h0, Dec.Neg]
    · rw [show fitDec b coef (n + 1) = fitDec b (roundTenNat coef) n by simp [fitDec, hfit],
        show fitDec (!b) coef (n + 1) = fitDec (!b) (roundTenNat coef) n by simp [fitDec, hfit]]
      exact ih b (roundTenNat coef)

/-- The sum of two decimals with equal scales is the sum of their signed
coefficients. -/
theorem Dec.sumInt_of_scale_eq (d e : Dec) (h : d.scale = e.scale) :
    Dec.sumInt d e = d.sval + e.sval := by
  unfold Dec.sumInt
  simp [h]

/-- Negating both summands negates the exact sum. -/
theorem Dec.sumInt_neg (d e : Dec) : Dec.sumInt d.Neg e.Neg = -(Dec.sumInt d e) := by
  unfold Dec.sumInt
  rw [Dec.scale_Neg, Dec.scale_Neg, Dec.sval_Neg, Dec.sval_Neg]
  ring

/-- Decimal addition commutes with negation of both arguments. -/
theorem Dec.Add_neg (d e : Dec) : (d.Neg).Add (e.Neg) = (d.Add e).map Dec.Neg := by
  unfold Dec.Add
  rw [Dec.sumInt_neg, Dec.scale_Neg, Dec.scale_Neg, fitDec_map_neg]
  rcases lt_trichotomy (Dec.sumInt d e) 0 with h|h|h
  · rw [show (decide (-Dec.sumInt d e < 0)) = false by simp; omega,
      show (decide (Dec.sumInt d e < 0)) = true by simp [h], Int.natAbs_neg]
    simp
  · rw [h]
    simp [fitDec_zero_coef]
  · rw [show (decide (-Dec.sumInt d e < 0)) = true by simp [h],
      show (decide (Dec.sumInt d e < 0)) = false by simp; omega, Int.natAbs_neg]
    simp

/-- `mkDec` commutes with negation. -/
theorem mkDec_neg (v : Int) (s : Nat) : (mkDec v s).Neg = mkDec (-v) s := by
  rcases lt_trichotomy v 0 with h|h|h
  · have h1 : v.natAbs ≠ 0 := by rw [Int.natAbs_ne_zero]; omega
    unfold mkDec Dec.Neg
    simp [h, h1, show ¬(-v < 0) by omega]
  · subst h
    rfl
  · have h1 : v.natAbs ≠ 0 := by rw [Int.natAbs_ne_zero]; omega
    unfold mkDec Dec.Neg
    simp [h1, show ¬(v < 0) by omega, show -v < 0 by omega]

/-- The two decimals returned by `QuoRem` are `mkDec` of the computed
quotient and remainder. -/
theorem quoRem_component (v : Int) (qn : Nat) (s : Nat) (h : v.natAbs = qn) :
    (⟨decide (v < 0), qn, s⟩ : Dec) = mkDec v s := by
  unfold mkDec
  rw [h]

/-- Flipping the sign of the signed value flips the stored sign bit:
the generic component fact behind `QuoRem`'s results. -/
theorem dec_mk_neg (v : Int) (c : Nat) (s : Nat) (hc : v.natAbs = c) :
    (⟨decide (-v < 0), c, s⟩ : Dec) = (⟨decide (v < 0), c, s⟩ : Dec).Neg := by
  subst hc
  rw [show (⟨decide (v < 0), v.natAbs, s⟩ : Dec) = mkDec v s from rfl, mkDec_neg]
  unfold mkDec
  rw [Int.natAbs_neg]

/-- `QuoRem` commutes with negation of the dividend when the divisor is
non-negative. -/
theorem Dec.QuoRem_neg (d e : Dec) (he : e.neg = false) :
    (d.Neg).QuoRem e = (d.QuoRem e).map (fun p => (p.1.Neg, p.2.Neg)) := by
  by_cases hz : e.coef = 0
  · simp [Dec.QuoRem, hz]
  · unfold Dec.QuoRem
    simp only [hz, if_false, Dec.scale_Neg, Dec.sval_Neg, neg_mul, ite_false]
    have hb0 : 0 < e.sval * (10 : Int) ^ (max d.scale e.scale - e.scale) := by
      have h1 : (0 : Int) < e.sval := by
        unfold Dec.sval
        rw [he]
        simp
        omega
      positivity
    set m := max d.scale e.scale with hm
    set a := d.sval * (10 : Int) ^ (m - d.scale) with ha
    set b := e.sval * (10 : Int) ^ (m - e.scale) with hb
    have hqn : (-a).natAbs = a.natAbs := Int.natAbs_neg a
    rw [hqn]
    set qn := a.natAbs / b.natAbs with hqndef
    have hcond1 : ((-a < 0 ∧ 0 ≤ b) ∨ (0 ≤ -a ∧ b < 0)) ↔ 0 < a := by omega
    have hcond2 : ((a < 0 ∧ 0 ≤ b) ∨ (0 ≤ a ∧ b < 0)) ↔ a < 0 := by omega
    simp only [hcond1, hcond2]
    rcases lt_trichotomy a 0 with hA|hA|hA
    · have e1 : ¬ (0 < a) := by omega
      simp only [hA, e1, if_true, if_false, ite_true, ite_false]
      have hq : -a - (qn : Int) * b = -(a - (-(qn : Int)) * b) := by ring
      rw [hq, Int.natAbs_neg]
      by_cases hg : qn ≤ maxCoef ∧ (a - (-(qn : Int)) * b).natAbs ≤ maxCoef
      · rw [if_pos hg, if_pos hg]
        simp only [Option.map_some']
        have c1 : (⟨decide ((qn : Int) < 0), qn, 0⟩ : Dec) =
            (⟨decide (-(qn : Int) < 0), qn, 0⟩ : Dec).Neg := by
          have := dec_mk_neg (-(qn : Int)) qn 0 (by rw [Int.natAbs_neg, Int.natAbs_ofNat])
          rw [neg_neg] at this
          exact this
        have c2 : (⟨decide (-(a - (-(qn : Int)) * b) < 0), (a - (-(qn : Int)) * b).natAbs, m⟩ : Dec) =
            (⟨decide ((a - (-(qn : Int)) * b) < 0), (a - (-(qn : Int)) * b).natAbs, m⟩ : Dec).Neg :=
          dec_mk_neg _ _ m rfl
        rw [c1, c2]
      · rw [if_neg hg, if_neg hg]
        rfl
    · have hqn0 : qn = 0 := by
        rw [hqndef, hA]
        simp
      simp only [hA, hqn0]
      norm_num [Dec.Neg]
    · have e1 : ¬ (a < 0) := by omega
      simp only [hA, e1, if_true, if_false, ite_true, ite_false]
      have hq : -a - (-(qn : Int)) * b = -(a - (qn : Int) * b) := by ring
      rw [hq, Int.natAbs_neg]
      by_cases hg : qn ≤ maxCoef ∧ (a - (qn : Int) * b).natAbs ≤ maxCoef
      · rw [if_pos hg, if_pos hg]
        simp only [Option.map_some']
        have c1 : (⟨decide (-(qn : Int) < 0), qn, 0⟩ : Dec) =
            (⟨decide ((qn : Int) < 0), qn, 0⟩ : Dec).Neg :=
          dec_mk_neg ((qn : Int)) qn 0 (Int.natAbs_ofNat qn)
        have c2 : (⟨decide (-(a - (qn : Int) * b) < 0), (a - (qn : Int) * b).natAbs, m⟩ : Dec) =
            (⟨decide ((a - (qn : Int) * b) < 0), (a - (qn : Int) * b).natAbs, m⟩ : Dec).Neg :=
          dec_mk_neg _ _ m rfl
        rw [c1, c2]
      · rw [if_neg hg, if_neg hg]
        rfl

/-- Negation preserves the digit count. -/
theorem Dec.Prec_Neg (d : Dec) : d.Neg.Prec = d.Prec := by
  unfold Dec.Prec
  rw [Dec.coef_Neg]

/-- Negation preserves zero-ness. -/
theorem Dec.IsZero_Neg (d : Dec) : d.Neg.IsZero = d.IsZero := by
  unfold Dec.IsZero
  rw [Dec.coef_Neg]

/-- Negation preserves the (method) scale. -/
theorem Dec.ScaleNeg (d : Dec) : d.Neg.Scale = d.Scale := by
  unfold Dec.Scale
  exact Dec.scale_Neg d

/-- The ripple step commutes with negating both fields (the divisor in
the code is one of the positive constants 60, 24, 7, 12). -/
theorem moveWholePartsLeft_neg (l s : Dec) (n : Int) (hn : 0 ≤ n) :
    moveWholePartsLeft l.Neg s.Neg n =
      ((moveWholePartsLeft l s n).1.Neg, (moveWholePartsLeft l s n).2.Neg) := by
  unfold moveWholePartsLeft
  by_cases hz : s.IsZero
  · simp [Dec.IsZero_Neg, hz]
  · simp only [Dec.IsZero_Neg, hz, if_false, Bool.false_eq_true, ite_false]
    have hnd : (⟨decide (n < 0), n.natAbs, 0⟩ : Dec).neg = false := by
      simp
      omega
    rw [Dec.QuoRem_neg s _ hnd]
    rcases hqr : s.QuoRem ⟨decide (n < 0), n.natAbs, 0⟩ with _ | ⟨q, r⟩
    · simp
    · simp only [Option.map_some']
      by_cases hguard : ¬ r.IsZero ∧ r.Prec ≤ r.Scale
      · have hguard2 : ¬ r.Neg.IsZero ∧ r.Neg.Prec ≤ r.Neg.Scale := by
          rw [Dec.IsZero_Neg, Dec.Prec_Neg, Dec.ScaleNeg]
          exact hguard
        rw [if_pos hguard2, if_pos hguard]
      · have hguard2 : ¬ (¬ r.Neg.IsZero ∧ r.Neg.Prec ≤ r.Neg.Scale) := by
          rw [Dec.IsZero_Neg, Dec.Prec_Neg, Dec.ScaleNeg]
          exact hguard
        rw [if_neg hguard2, if_neg hguard, Dec.Add_neg]
        rcases hadd : l.Add q with _ | l2 <;> rfl

/-- `flipSign` is involutive. -/
theorem flipSign_flipSign (p : Period64) : p.flipSign.flipSign = p := by
  obtain ⟨y, mo, w, d, h, mi, s, n⟩ := p
  unfold Period64.flipSign Period64.negateAllFields
  simp [Dec.Neg_Neg]

/-- `Normalise` commutes with negating all the fields. -/
theorem Normalise_negateAllFields (p : Period64) (precise : Bool) :
    (p.negateAllFields).Normalise precise = (p.Normalise precise).negateAllFields := by
  have h60 : (0 : Int) ≤ 60 := by norm_num
  have h24 : (0 : Int) ≤ 24 := by norm_num
  have h7 : (0 : Int) ≤ 7 := by norm_num
  have h12 : (0 : Int) ≤ 12 := by norm_num
  obtain ⟨y, mo, w, d, h, mi, s, n⟩ := p
  rcases precise <;>
    simp [Period64.Normalise, Period64.negateAllFields,
      moveWholePartsLeft_neg _ _ 60 h60, moveWholePartsLeft_neg _ _ 24 h24,
      moveWholePartsLeft_neg _ _ 7 h7, moveWholePartsLeft_neg _ _ 12 h12]

/-- `Normalise` ignores and preserves the flag, so it commutes with
`flipSign` as well. -/
theorem Normalise_flipSign (p : Period64) (precise : Bool) :
    (p.flipSign).Normalise precise = (p.Normalise precise).flipSign := by
  unfold Period64.flipSign
  rw [Normalise_negateAllFields]
  rfl

/-- `NormaliseSign` is insensitive to a preliminary `flipSign`. -/
theorem ns_flipSign (p : Period64) : p.flipSign.NormaliseSign = p.NormaliseSign := by
  rw [ns_eq_firstSign, ns_eq_firstSign, fieldsList_flipSign, firstSign_map_neg]
  rcases lt_trichotomy (firstSign p.fieldsList) 0 with h|h|h
  · rw [if_pos (by omega), if_neg (by omega), if_pos h]
  · rw [h]
    norm_num
  · rw [if_neg (by omega), if_pos (by omega), if_pos h, flipSign_flipSign]

/-- `firstSign` is zero exactly when every entry has sign zero. -/
theorem firstSign_zero_iff (l : List Dec) :
    firstSign l = 0 ↔ ∀ d ∈ l, d.Sign = 0 := by
  induction l with
  | nil => simp [firstSign]
  | cons d t ih =>
    by_cases h : d.Sign = 0
    · simp [firstSign_cons, h, ih]
    · simp [firstSign_cons, h]

/-- A decimal's sign is zero exactly when its coefficient is. -/
theorem Dec.Sign_eq_zero_iff (d : Dec) : d.Sign = 0 ↔ d.coef = 0 := by
  unfold Dec.Sign
  split_ifs <;> simp_all

/-- Extensionality for periods. -/
theorem period_ext (p q : Period64) (h1 : p.years = q.years) (h2 : p.months = q.months)
    (h3 : p.weeks = q.weeks) (h4 : p.days = q.days) (h5 : p.hours = q.hours)
    (h6 : p.minutes = q.minutes) (h7 : p.seconds = q.seconds) (h8 : p.neg = q.neg) :
    p = q := by
  cases p
  cases q
  simp_all

/-- The magnitude of the signed coefficient is the coefficient. -/
theorem Dec.sval_natAbs (d : Dec) : d.sval.natAbs = d.coef := by
  unfold Dec.sval
  rcases h : d.neg <;> simp

/-- Negation preserves decimal well-formedness. -/
theorem Dec.wf_Neg (d : Dec) (h : d.wf) : d.Neg.wf := by
  obtain ⟨hc, hs, hz⟩ := h
  refine ⟨?_, ?_, ?_⟩
  · rw [Dec.coef_Neg]
    exact hc
  · rw [Dec.scale_Neg]
    exact hs
  · intro h0
    rw [Dec.coef_Neg] at h0
    simp [Dec.Neg, h0, hz h0]

/-- `flatten` yields a period with a cleared flag. -/
theorem flatten_neg_false (p : Period64) : p.flatten.neg = false := by
  unfold Period64.flatten Period64.flipSign Period64.negateAllFields
  rcases h : p.neg <;> simp [h]

/-- `flatten` keeps every field scale. -/
theorem flatten_scales (p : Period64) :
    p.flatten.years.scale = p.years.scale ∧ p.flatten.months.scale = p.months.scale ∧
    p.flatten.weeks.scale = p.weeks.scale ∧ p.flatten.days.scale = p.days.scale ∧
    p.flatten.hours.scale = p.hours.scale ∧ p.flatten.minutes.scale = p.minutes.scale ∧
    p.flatten.seconds.scale = p.seconds.scale := by
  unfold Period64.flatten Period64.flipSign Period64.negateAllFields
  rcases h : p.neg <;> simp [h, Dec.scale_Neg]

/-- `flatten` preserves period well-formedness. -/
theorem Period64.wf_flatten (p : Period64) (h : p.wf) : p.flatten.wf := by
  unfold Period64.wf at h ⊢
  rcases hn : p.neg
  · have e : p.flatten = p := by
      unfold Period64.flatten
      simp [hn]
    rw [e]
    exact h
  · have e : p.flatten = p.flipSign := by
      unfold Period64.flatten
      simp [hn]
    rw [e, fieldsList_flipSign]
    intro d hd
    obtain ⟨e', he', rfl⟩ := List.mem_map.1 hd
    exact Dec.wf_Neg e' (h e' he')

/-- `Negate` then `flatten` is `flatten` then fieldwise negation. -/
theorem negate_flatten (p : Period64) : (p.Negate).flatten = (p.flatten).negateAllFields := by
  obtain ⟨y, mo, w, d, h, mi, s, n⟩ := p
  by_cases hz : Period64.IsZero ⟨y, mo, w, d, h, mi, s, n⟩
  · have hfields : (⟨y, mo, w, d, h, mi, s, false⟩ : Period64) = Period64.Zero :=
      of_decide_eq_true hz
    rw [Period64.Zero] at hfields
    injection hfields with e1 e2 e3 e4 e5 e6 e7 _
    subst e1; subst e2; subst e3; subst e4; subst e5; subst e6; subst e7
    unfold Period64.Negate
    rw [if_pos hz]
    rcases n <;> rfl
  · unfold Period64.Negate
    rw [if_neg (by simpa using hz)]
    rcases n <;>
      simp [Period64.flatten, Period64.flipSign, Period64.negateAllFields, Dec.Neg_Neg]

/-- Stage-one field fact for the add/subtract inverse: with equal scales
and an exactly representable sum, the field of `addFields` is the exact
sum at the common scale. -/
theorem stage1_field (dA dB : Dec) (hwA : dA.wf) (hs : dA.scale = dB.scale)
    (hx : (Dec.sumInt dA dB).natAbs ≤ maxCoef) :
    (dA.Add dB).getD Dec.zero = mkDec (dA.sval + dB.sval) dA.scale := by
  have hm : max dA.scale dB.scale = dA.scale := by omega
  rw [Dec.Add_exact dA dB (by rw [hm]; exact hwA.2.1) hx, hm,
    Dec.sumInt_of_scale_eq dA dB hs]
  rfl

/-- Stage-two field fact: adding the negated second summand to the exact
sum recovers the first summand. -/
theorem stage2_field (dA dB S : Dec) (hwA : dA.wf) (hs : dA.scale = dB.scale)
    (hS : S.sval = dA.sval + dB.sval) (hSs : S.scale = dA.scale) :
    (S.Add dB.Neg).getD Dec.zero = dA := by
  have hm : max S.scale dB.Neg.scale = dA.scale := by
    rw [Dec.scale_Neg, hSs]
    omega
  have hsum : Dec.sumInt S dB.Neg = dA.sval := by
    rw [Dec.sumInt_of_scale_eq S dB.Neg (by rw [Dec.scale_Neg, hSs]; omega),
      Dec.sval_Neg, hS]
    ring
  have hx : (Dec.sumInt S dB.Neg).natAbs ≤ maxCoef := by
    rw [hsum, Dec.sval_natAbs]
    exact hwA.1
  rw [Dec.Add_exact S dB.Neg (by rw [hm]; exact hwA.2.1) hx, hsum, hm, mkDec_self dA hwA.2.2]
  rfl

/-- Stage-two field fact in the collapsed-to-zero case: when the exact
sum was zero, adding the negated second summand to the zero decimal
recovers the first summand. -/
theorem stage2_field_zero (dA dB : Dec) (hwA : dA.wf) (hs : dA.scale = dB.scale)
    (hzero : dA.sval + dB.sval = 0) :
    (Dec.zero.Add dB.Neg).getD Dec.zero = dA := by
  have hm : max Dec.zero.scale dB.Neg.scale = dA.scale := by
    rw [Dec.scale_Neg]
    show max 0 dB.scale = dA.scale
    omega
  have hsum : Dec.sumInt Dec.zero dB.Neg = dA.sval := by
    unfold Dec.sumInt
    rw [Dec.scale_Neg, Dec.sval_Neg]
    show Dec.zero.sval * 10 ^ (max 0 dB.scale - 0) + -dB.sval * 10 ^ (max 0 dB.scale - dB.scale) = dA.sval
    rw [show Dec.zero.sval = 0 from rfl, Nat.max_comm, Nat.max_zero, Nat.sub_self]
    have : dA.sval = -dB.sval := by omega
    rw [this]
    ring
  have hx : (Dec.sumInt Dec.zero dB.Neg).natAbs ≤ maxCoef := by
    rw [hsum, Dec.sval_natAbs]
    exact hwA.1
  rw [Dec.Add_exact Dec.zero dB.Neg (by rw [hm]; exact hwA.2.1) hx, hsum, hm, mkDec_self dA hwA.2.2]
  rfl

/-- Folding a flattened period back through `Normalise`/`NormaliseSign`
gives the same result as working on the original period. -/
theorem flatten_normalise_ns (a : Period64) :
    (((a.flatten).Normalise true).NormaliseSign) = ((a.Normalise true).NormaliseSign) := by
  rcases hn : a.neg
  · rw [show a.flatten = a by unfold Period64.flatten; simp [hn]]
  · rw [show a.flatten = a.flipSign by unfold Period64.flatten; simp [hn],
      Normalise_flipSign, ns_flipSign]

/-- C2 counterexample: with a = b = PT30S nothing overflows, yet
`subtract(add(a,b),b)` is `PT1M-30S` (one minute minus thirty seconds),
which is not field-equal to `normalise_sign(normalise(a,true)) = PT30S`:
the ripple performed inside `Add` is not undone by `Subtract`. -/
theorem c2_cex_ripple :
    Period64.Parse ("PT30S") = some { Period64.Zero with seconds := ⟨false, 30, 0⟩ } ∧
    (Period64.Add { Period64.Zero with seconds := ⟨false, 30, 0⟩ }
      { Period64.Zero with seconds := ⟨false, 30, 0⟩ }).2 = true ∧
    ((Period64.Add { Period64.Zero with seconds := ⟨false, 30, 0⟩ }
      { Period64.Zero with seconds := ⟨false, 30, 0⟩ }).1.Subtract
        { Period64.Zero with seconds := ⟨false, 30, 0⟩ }).2 = true ∧
    ((Period64.Add { Period64.Zero with seconds := ⟨false, 30, 0⟩ }
      { Period64.Zero with seconds := ⟨false, 30, 0⟩ }).1.Subtract
        { Period64.Zero with seconds := ⟨false, 30, 0⟩ }).1 ≠
      (Period64.Normalise { Period64.Zero with seconds := ⟨false, 30, 0⟩ } true).NormaliseSign := by
  refine ⟨by decide, by decide, by decide, by decide⟩

set_option maxHeartbeats 2000000

/-- C2 (amended): for well-formed periods a and b whose corresponding
fields have the same decimal scales, whose flattened fieldwise sums are
all exactly representable (no overflow and no rounding), and for which
the intermediate raw sum needs no normalisation ripple,
`subtract(add(a,b),b)` is field-equal to
`normalise_sign(normalise(a, precise=true))`. -/
theorem c2_add_subtract_inverse (a b : Period64)
    (hwa : a.wf) (hwb : b.wf)
    (hs1 : a.years.Scale = b.years.Scale) (hs2 : a.months.Scale = b.months.Scale)
    (hs3 : a.weeks.Scale = b.weeks.Scale) (hs4 : a.days.Scale = b.days.Scale)
    (hs5 : a.hours.Scale = b.hours.Scale) (hs6 : a.minutes.Scale = b.minutes.Scale)
    (hs7 : a.seconds.Scale = b.seconds.Scale)
    (hx1 : (Dec.sumInt a.flatten.years b.flatten.years).natAbs ≤ maxCoef)
    (hx2 : (Dec.sumInt a.flatten.months b.flatten.months).natAbs ≤ maxCoef)
    (hx3 : (Dec.sumInt a.flatten.weeks b.flatten.weeks).natAbs ≤ maxCoef)
    (hx4 : (Dec.sumInt a.flatten.days b.flatten.days).natAbs ≤ maxCoef)
    (hx5 : (Dec.sumInt a.flatten.hours b.flatten.hours).natAbs ≤ maxCoef)
    (hx6 : (Dec.sumInt a.flatten.minutes b.flatten.minutes).natAbs ≤ maxCoef)
    (hx7 : (Dec.sumInt a.flatten.seconds b.flatten.seconds).natAbs ≤ maxCoef)
    (hnr : (a.flatten.addFields b.flatten).Normalise true = a.flatten.addFields b.flatten) :
    ((a.Add b).1.Subtract b).1 = (a.Normalise true).NormaliseSign := by
  have hwA : a.flatten.wf := Period64.wf_flatten a hwa
  have hwAy : a.flatten.years.wf := hwA _ (by simp [Period64.fieldsList])
  have hwAmo : a.flatten.months.wf := hwA _ (by simp [Period64.fieldsList])
  have hwAw : a.flatten.weeks.wf := hwA _ (by simp [Period64.fieldsList])
  have hwAd : a.flatten.days.wf := hwA _ (by simp [Period64.fieldsList])
  have hwAh : a.flatten.hours.wf := hwA _ (by simp [Period64.fieldsList])
  have hwAmi : a.flatten.minutes.wf := hwA _ (by simp [Period64.fieldsList])
  have hwAs : a.flatten.seconds.wf := hwA _ (by simp [Period64.fieldsList])
  have hfsa := flatten_scales a
  have hfsb := flatten_scales b
  have hsY : a.flatten.years.scale = b.flatten.years.scale := by
    rw [hfsa.1, hfsb.1]
    exact hs1
  have hsMo : a.flatten.months.scale = b.flatten.months.scale := by
    rw [hfsa.2.1, hfsb.2.1]
    exact hs2
  have hsW : a.flatten.weeks.scale = b.flatten.weeks.scale := by
    rw [hfsa.2.2.1, hfsb.2.2.1]
    exact hs3
  have hsD : a.flatten.days.scale = b.flatten.days.scale := by
    rw [hfsa.2.2.2.1, hfsb.2.2.2.1]
    exact hs4
  have hsH : a.flatten.hours.scale = b.flatten.hours.scale := by
    rw [hfsa.2.2.2.2.1, hfsb.2.2.2.2.1]
    exact hs5
  have hsMi : a.flatten.minutes.scale = b.flatten.minutes.scale := by
    rw [hfsa.2.2.2.2.2.1, hfsb.2.2.2.2.2.1]
    exact hs6
  have hsS : a.flatten.seconds.scale = b.flatten.seconds.scale := by
    rw [hfsa.2.2.2.2.2.2, hfsb.2.2.2.2.2.2]
    exact hs7
  set S := a.flatten.addFields b.flatten with hSdef
  have hSy : S.years = mkDec (a.flatten.years.sval + b.flatten.years.sval) a.flatten.years.scale :=
    stage1_field _ _ hwAy hsY hx1
  have hSmo : S.months = mkDec (a.flatten.months.sval + b.flatten.months.sval) a.flatten.months.scale :=
    stage1_field _ _ hwAmo hsMo hx2
  have hSw : S.weeks = mkDec (a.flatten.weeks.sval + b.flatten.weeks.sval) a.flatten.weeks.scale :=
    stage1_field _ _ hwAw hsW hx3
  have hSd : S.days = mkDec (a.flatten.days.sval + b.flatten.days.sval) a.flatten.days.scale :=
    stage1_field _ _ hwAd hsD hx4
  have hSh : S.hours = mkDec (a.flatten.hours.sval + b.flatten.hours.sval) a.flatten.hours.scale :=
    stage1_field _ _ hwAh hsH hx5
  have hSmi : S.minutes = mkDec (a.flatten.minutes.sval + b.flatten.minutes.sval) a.flatten.minutes.scale :=
    stage1_field _ _ hwAmi hsMi hx6
  have hSs : S.seconds = mkDec (a.flatten.seconds.sval + b.flatten.seconds.sval) a.flatten.seconds.scale :=
    stage1_field _ _ hwAs hsS hx7
  have hSneg : S.neg = false := rfl
  have hab1 : (a.Add b).1 = S.NormaliseSign := by
    show ((a.flatten.addFields b.flatten).Normalise true).NormaliseSign = S.NormaliseSign
    rw [← hSdef, hnr]
  rw [hab1]
  have hsub : ((S.NormaliseSign).Subtract b).1 =
      (((S.NormaliseSign).flatten.addFields ((b.Negate).flatten)).Normalise true).NormaliseSign :=
    rfl
  rw [hsub, negate_flatten b]
  by_cases hfs : firstSign S.fieldsList = 0
  · have hNSS : S.NormaliseSign = Period64.Zero := by
      rw [ns_eq_firstSign, hfs]
      norm_num
    have hall := (firstSign_zero_iff S.fieldsList).1 hfs
    have hzY : a.flatten.years.sval + b.flatten.years.sval = 0 := by
      have h1 : S.years.Sign = 0 := hall S.years (by simp [Period64.fieldsList])
      rw [Dec.Sign_eq_zero_iff, hSy, mkDec_coef] at h1
      omega
    have hzMo : a.flatten.months.sval + b.flatten.months.sval = 0 := by
      have h1 : S.months.Sign = 0 := hall S.months (by simp [Period64.fieldsList])
      rw [Dec.Sign_eq_zero_iff, hSmo, mkDec_coef] at h1
      omega
    have hzW : a.flatten.weeks.sval + b.flatten.weeks.sval = 0 := by
      have h1 : S.weeks.Sign = 0 := hall S.weeks (by simp [Period64.fieldsList])
      rw [Dec.Sign_eq_zero_iff, hSw, mkDec_coef] at h1
      omega
    have hzD : a.flatten.days.sval + b.flatten.days.sval = 0 := by
      have h1 : S.days.Sign = 0 := hall S.days (by simp [Period64.fieldsList])
      rw [Dec.Sign_eq_zero_iff, hSd, mkDec_coef] at h1
      omega
    have hzH : a.flatten.hours.sval + b.flatten.hours.sval = 0 := by
      have h1 : S.hours.Sign = 0 := hall S.hours (by simp [Period64.fieldsList])
      rw [Dec.Sign_eq_zero_iff, hSh, mkDec_coef] at h1
      omega
    have hzMi : a.flatten.minutes.sval + b.flatten.minutes.sval = 0 := by
      have h1 : S.minutes.Sign = 0 := hall S.minutes (by simp [Period64.fieldsList])
      rw [Dec.Sign_eq_zero_iff, hSmi, mkDec_coef] at h1
      omega
    have hzS : a.flatten.seconds.sval + b.flatten.seconds.sval = 0 := by
      have h1 : S.seconds.Sign = 0 := hall S.seconds (by simp [Period64.fieldsList])
      rw [Dec.Sign_eq_zero_iff, hSs, mkDec_coef] at h1
      omega
    rw [hNSS]
    have hflat0 : Period64.Zero.flatten = Period64.Zero := rfl
    rw [hflat0]
    have hT : Period64.Zero.addFields ((b.flatten).negateAllFields) = a.flatten := by
      apply period_ext
      · exact stage2_field_zero _ _ hwAy hsY hzY
      · exact stage2_field_zero _ _ hwAmo hsMo hzMo
      · exact stage2_field_zero _ _ hwAw hsW hzW
      · exact stage2_field_zero _ _ hwAd hsD hzD
      · exact stage2_field_zero _ _ hwAh hsH hzH
      · exact stage2_field_zero _ _ hwAmi hsMi hzMi
      · exact stage2_field_zero _ _ hwAs hsS hzS
      · exact (flatten_neg_false a).symm
    rw [hT]
    exact flatten_normalise_ns a
  · have hXf : (S.NormaliseSign).flatten = S := by
      rw [ns_eq_firstSign]
      rcases lt_trichotomy (firstSign S.fieldsList) 0 with h|h|h
      · rw [if_neg (by omega), if_pos h]
        have hfneg : S.flipSign.neg = true := by
          simp [Period64.flipSign, Period64.negateAllFields, hSneg]
        unfold Period64.flatten
        rw [hfneg]
        simp [flipSign_flipSign]
      · exact absurd h hfs
      · rw [if_pos h]
        unfold Period64.flatten
        rw [hSneg]
        simp
    rw [hXf]
    have hT : S.addFields ((b.flatten).negateAllFields) = a.flatten := by
      apply period_ext
      · exact stage2_field _ _ _ hwAy hsY (by rw [hSy, mkDec_sval]) (by rw [hSy, mkDec_scale])
      · exact stage2_field _ _ _ hwAmo hsMo (by rw [hSmo, mkDec_sval]) (by rw [hSmo, mkDec_scale])
      · exact stage2_field _ _ _ hwAw hsW (by rw [hSw, mkDec_sval]) (by rw [hSw, mkDec_scale])
      · exact stage2_field _ _ _ hwAd hsD (by rw [hSd, mkDec_sval]) (by rw [hSd, mkDec_scale])
      · exact stage2_field _ _ _ hwAh hsH (by rw [hSh, mkDec_sval]) (by rw [hSh, mkDec_scale])
      · exact stage2_field _ _ _ hwAmi hsMi (by rw [hSmi, mkDec_sval]) (by rw [hSmi, mkDec_scale])
      · exact stage2_field _ _ _ hwAs hsS (by rw [hSs, mkDec_sval]) (by rw [hSs, mkDec_scale])
      · exact (flatten_neg_false a).symm
    rw [hT]
    exact flatten_normalise_ns a

/-- C2 witness: the amended statement applied to a = P1Y, b = P2Y. -/
theorem c2_witness :
    ((Period64.Add { Period64.Zero with years := ⟨false, 1, 0⟩ }
      { Period64.Zero with years := ⟨false, 2, 0⟩ }).1.Subtract
        { Period64.Zero with years := ⟨false, 2, 0⟩ }).1 =
      (Period64.Normalise { Period64.Zero with years := ⟨false, 1, 0⟩ } true).NormaliseSign :=
  c2_add_subtract_inverse
    { Period64.Zero with years := ⟨false, 1, 0⟩ } { Period64.Zero with years := ⟨false, 2, 0⟩ }
    (by decide) (by decide) (by decide) (by decide) (by decide) (by decide) (by decide)
    (by decide) (by decide) (by decide) (by decide) (by decide) (by decide) (by decide)
    (by decide) (by decide) (by decide)

/-! ### Round-tripping the formatter through the parser (C1)

The development below establishes that the decimal renderer and the
period formatter invert `decimal.Parse` and `Period64.Parse` on the
strings they produce, for sign-canonical periods whose fraction (if
any) sits on the last non-zero field. -/

/-- The little-endian digit list evaluates back to the number (with
enough fuel). -/
theorem natDigitsRevFuel_ofDigits :
    ∀ (fuel n : Nat), n ≤ fuel → Nat.ofDigits 10 (natDigitsRevFuel fuel n) = n := by
  intro fuel
  induction fuel with
  | zero =>
    intro n h
    have : n = 0 := by omega
    simp [this, natDigitsRevFuel]
  | succ f ih =>
    intro n h
    by_cases h0 : n = 0
    · simp [h0, natDigitsRevFuel]
    · have hlt : n / 10 < n := Nat.div_lt_self (by omega) (by norm_num)
      rw [show natDigitsRevFuel (f + 1) n = n % 10 :: natDigitsRevFuel f (n / 10) by
        simp [natDigitsRevFuel, h0]]
      rw [Nat.ofDigits_cons, ih (n / 10) (by omega)]
      omega

/-- Every digit produced by the digit recursion is below ten. -/
theorem natDigitsRevFuel_lt_ten :
    ∀ (fuel n d : Nat), d ∈ natDigitsRevFuel fuel n → d < 10 := by
  intro fuel
  induction fuel with
  | zero => intro n d h; simp [natDigitsRevFuel] at h
  | succ f ih =>
    intro n d h
    by_cases h0 : n = 0
    · simp [h0, natDigitsRevFuel] at h
    · rw [show natDigitsRevFuel (f + 1) n = n % 10 :: natDigitsRevFuel f (n / 10) by
        simp [natDigitsRevFuel, h0]] at h
      rcases List.mem_cons.mp h with h1 | h1
      · omega
      · exact ih (n / 10) d h1

/-- A number below `10 ^ k` has at most `k` digits. -/
theorem natDigitsRevFuel_length :
    ∀ (fuel n k : Nat), n ≤ fuel → n < 10 ^ k → (natDigitsRevFuel fuel n).length ≤ k := by
  intro fuel
  induction fuel with
  | zero =>
    intro n k h _
    have : n = 0 := by omega
    simp [this, natDigitsRevFuel]
  | succ f ih =>
    intro n k h hk
    by_cases h0 : n = 0
    · simp [h0, natDigitsRevFuel]
    · rw [show natDigitsRevFuel (f + 1) n = n % 10 :: natDigitsRevFuel f (n / 10) by
        simp [natDigitsRevFuel, h0]]
      cases k with
      | zero =>
        simp at hk
        omega
      | succ m =>
        have hdiv : n / 10 < 10 ^ m := by
          rw [Nat.div_lt_iff_lt_mul (by norm_num)]
          calc n < 10 ^ (m + 1) := hk
          _ = 10 ^ m * 10 := by ring
        have hlt : n / 10 < n := Nat.div_lt_self (by omega) (by norm_num)
        have := ih (n / 10) m (by omega) hdiv
        simpa using this

/-- The character of a digit is a digit character. -/
theorem digitChar_isDigit (d : Nat) (h : d < 10) : isDigitChar (digitChar d) = true := by
  interval_cases d <;> decide

/-- The numeric value read back from a digit character. -/
theorem digitChar_val (d : Nat) (h : d < 10) : (digitChar d).toNat - 48 = d := by
  interval_cases d <;> decide

/-- Folding the digit-reading step from an arbitrary accumulator. -/
theorem charsToNat_shift (b : List Char) :
    ∀ init : Nat, List.foldl (fun a c => 10 * a + (c.toNat - 48)) init b =
      init * 10 ^ b.length + charsToNat b := by
  induction b with
  | nil => intro init; simp [charsToNat]
  | cons c t ih =>
    intro init
    have h1 : charsToNat (c :: t) = (c.toNat - 48) * 10 ^ t.length + charsToNat t := by
      show List.foldl (fun a c => 10 * a + (c.toNat - 48)) 0 (c :: t) = _
      rw [List.foldl_cons, ih (10 * 0 + (c.toNat - 48))]
      norm_num
    rw [List.foldl_cons, ih (10 * init + (c.toNat - 48)), h1, List.length_cons]
    ring

/-- Reading a concatenation of digit strings. -/
theorem charsToNat_append (a b : List Char) :
    charsToNat (a ++ b) = charsToNat a * 10 ^ b.length + charsToNat b := by
  unfold charsToNat
  rw [List.foldl_append]
  exact charsToNat_shift b _

/-- Reading back a most-significant-first digit rendering. -/
theorem charsToNat_digits (ds : List Nat) (h : ∀ d ∈ ds, d < 10) :
    charsToNat (ds.reverse.map digitChar) = Nat.ofDigits 10 ds := by
  induction ds with
  | nil => simp [charsToNat]
  | cons d t ih =>
    have hd : d < 10 := h d (by simp)
    have ht : ∀ e ∈ t, e < 10 := fun e he => h e (by simp [he])
    rw [List.reverse_cons, List.map_append, charsToNat_append, ih ht, Nat.ofDigits_cons]
    have h1 : charsToNat [digitChar d] = d := by
      unfold charsToNat
      simp [digitChar_val d hd]
    simp only [List.map_cons, List.map_nil, h1, List.length_cons, List.length_nil]
    ring

/-- The renderer of naturals is inverted by the reader. -/
theorem charsToNat_natToChars (n : Nat) : charsToNat (natToChars n) = n := by
  by_cases h : n = 0
  · simp [h, natToChars, charsToNat]
  · rw [natToChars, if_neg h]
    unfold natDigitsRev
    rw [charsToNat_digits _ (fun d hd => natDigitsRevFuel_lt_ten n n d hd)]
    exact natDigitsRevFuel_ofDigits n n le_rfl

/-- The rendering of a natural number is never empty. -/
theorem natToChars_ne_nil (n : Nat) : natToChars n ≠ [] := by
  by_cases h : n = 0
  · simp [h, natToChars]
  · rw [natToChars, if_neg h]
    cases n with
    | zero => exact absurd rfl h
    | succ m =>
      rw [show natDigitsRev (m + 1) = (m + 1) % 10 :: natDigitsRevFuel m ((m + 1) / 10) by
        simp [natDigitsRev, natDigitsRevFuel]]
      simp

/-- Every character of a rendered natural is a digit. -/
theorem natToChars_digits (n : Nat) : ∀ c ∈ natToChars n, isDigitChar c = true := by
  intro c hc
  by_cases h : n = 0
  · simp [h, natToChars] at hc
    subst hc
    decide
  · rw [natToChars, if_neg h] at hc
    rcases List.mem_map.mp hc with ⟨d, hd, rfl⟩
    exact digitChar_isDigit d (natDigitsRevFuel_lt_ten n n d (List.mem_reverse.mp hd))

/-- Leading zero characters read back as zero. -/
theorem charsToNat_replicate_zero (k : Nat) : charsToNat (List.replicate k '0') = 0 := by
  induction k with
  | zero => simp [charsToNat]
  | succ m ih =>
    rw [List.replicate_succ]
    unfold charsToNat at ih ⊢
    simpa using ih

/-- The padded fraction rendering reads back to the value. -/
theorem natToCharsPadded_val (m len : Nat) : charsToNat (natToCharsPadded m len) = m := by
  unfold natToCharsPadded natDigitsRev
  rw [charsToNat_append, charsToNat_replicate_zero,
    charsToNat_digits _ (fun d hd => natDigitsRevFuel_lt_ten m m d hd),
    natDigitsRevFuel_ofDigits m m le_rfl]
  simp

/-- The padded fraction rendering has exactly the requested length. -/
theorem natToCharsPadded_length (m len : Nat) (h : m < 10 ^ len) :
    (natToCharsPadded m len).length = len := by
  unfold natToCharsPadded
  have hlen : (natDigitsRev m).length ≤ len := natDigitsRevFuel_length m m len le_rfl h
  simp only [List.length_append, List.length_replicate, List.length_map, List.length_reverse]
  omega

/-- Every character of the padded fraction rendering is a digit. -/
theorem natToCharsPadded_digits (m len : Nat) :
    ∀ c ∈ natToCharsPadded m len, isDigitChar c = true := by
  intro c hc
  unfold natToCharsPadded at hc
  rcases List.mem_append.mp hc with h | h
  · rw [List.eq_of_mem_replicate h]
    decide
  · rcases List.mem_map.mp h with ⟨d, hd, rfl⟩
    exact digitChar_isDigit d (natDigitsRevFuel_lt_ten m m d (List.mem_reverse.mp hd))

/-- A digit character is none of the special characters the scanner and
parser treat specially. -/
theorem isDigitChar_ne (c : Char) (h : isDigitChar c = true) :
    c ≠ '-' ∧ c ≠ '+' ∧ c ≠ '.' ∧ c ≠ ',' ∧ c ≠ 'T' := by
  refine ⟨?_, ?_, ?_, ?_, ?_⟩ <;> (rintro rfl; revert h; decide)

/-- takeWhile collects a fully satisfying prefix. -/
theorem takeWhile_all (p : Char → Bool) :
    ∀ l : List Char, (∀ c ∈ l, p c = true) → l.takeWhile p = l := by
  intro l
  induction l with
  | nil => intro _; rfl
  | cons c t ih =>
    intro h
    rw [List.takeWhile_cons, if_pos (h c (by simp)), ih (fun e he => h e (by simp [he]))]

/-- dropWhile discards a fully satisfying list. -/
theorem dropWhile_all (p : Char → Bool) :
    ∀ l : List Char, (∀ c ∈ l, p c = true) → l.dropWhile p = [] := by
  intro l
  induction l with
  | nil => intro _; rfl
  | cons c t ih =>
    intro h
    rw [List.dropWhile_cons, if_pos (h c (by simp))]
    exact ih (fun e he => h e (by simp [he]))

/-- takeWhile stops exactly at the first failing character. -/
theorem takeWhile_append_stop (p : Char → Bool) (a : List Char) (x : Char) (b : List Char)
    (ha : ∀ c ∈ a, p c = true) (hx : p x = false) :
    (a ++ x :: b).takeWhile p = a := by
  induction a with
  | nil => simp [List.takeWhile_cons, hx]
  | cons c t ih =>
    rw [List.cons_append, List.takeWhile_cons, if_pos (ha c (by simp))]
    rw [ih (fun e he => ha e (by simp [he]))]

/-- dropWhile stops exactly at the first failing character. -/
theorem dropWhile_append_stop (p : Char → Bool) (a : List Char) (x : Char) (b : List Char)
    (ha : ∀ c ∈ a, p c = true) (hx : p x = false) :
    (a ++ x :: b).dropWhile p = x :: b := by
  induction a with
  | nil => simp [List.dropWhile_cons, hx]
  | cons c t ih =>
    rw [List.cons_append, List.dropWhile_cons, if_pos (ha c (by simp))]
    exact ih (fun e he => ha e (by simp [he]))

/-- A digit character satisfies the scanning range test. -/
theorem isDigitChar_range (c : Char) (h : isDigitChar c = true) : '0' ≤ c ∧ c ≤ '9' := by
  unfold isDigitChar at h
  exact of_decide_eq_true h

/-- A non-digit character fails the scanning range test. -/
theorem isDigitChar_not_range (c : Char) (h : isDigitChar c = false) : ¬('0' ≤ c ∧ c ≤ '9') := by
  unfold isDigitChar at h
  exact of_decide_eq_false h

/-- The digit part of a decimal rendering (after the optional sign)
starts with a digit character. -/
theorem tc_body_shape (co sc : Nat) : ∃ c tl,
    (if sc = 0 then natToChars co
      else natToChars (co / 10 ^ sc) ++ '.' :: natToCharsPadded (co % 10 ^ sc) sc) = c :: tl ∧
    isDigitChar c = true := by
  rcases Nat.eq_zero_or_pos sc with hs | hs
  · obtain ⟨c, tl, hct⟩ := List.exists_cons_of_ne_nil (natToChars_ne_nil co)
    exact ⟨c, tl, by rw [if_pos hs, hct], natToChars_digits co c (by rw [hct]; simp)⟩
  · obtain ⟨c, tl, hct⟩ := List.exists_cons_of_ne_nil (natToChars_ne_nil (co / 10 ^ sc))
    refine ⟨c, tl ++ '.' :: natToCharsPadded (co % 10 ^ sc) sc, ?_, ?_⟩
    · rw [if_neg (by omega), hct, List.cons_append]
    · exact natToChars_digits _ c (by rw [hct]; simp)

/-- A decimal rendering is never empty. -/
theorem toChars_ne_nil (d : Dec) : d.toChars ≠ [] := by
  obtain ⟨ng, co, sc⟩ := d
  obtain ⟨c, tl, hbs, -⟩ := tc_body_shape co sc
  cases ng <;> simp [Dec.toChars, hbs]

/-- The first character of a decimal rendering is a minus sign or a
digit. -/
theorem toChars_head_cases (d : Dec) (c : Char) (tl : List Char) (h : d.toChars = c :: tl) :
    c = '-' ∨ isDigitChar c = true := by
  obtain ⟨ng, co, sc⟩ := d
  obtain ⟨c0, tl0, hbs, hcd⟩ := tc_body_shape co sc
  cases ng
  · rw [show Dec.toChars ⟨false, co, sc⟩ =
      (if sc = 0 then natToChars co
        else natToChars (co / 10 ^ sc) ++ '.' :: natToCharsPadded (co % 10 ^ sc) sc) by
        simp [Dec.toChars], hbs] at h
    rcases h with ⟨rfl, rfl⟩
    exact Or.inr hcd
  · rw [show Dec.toChars ⟨true, co, sc⟩ =
      '-' :: (if sc = 0 then natToChars co
        else natToChars (co / 10 ^ sc) ++ '.' :: natToCharsPadded (co % 10 ^ sc) sc) by
        simp [Dec.toChars]] at h
    rcases h with ⟨rfl, rfl⟩
    exact Or.inl rfl

/-- Only a zero-coefficient decimal renders as the single character 0. -/
theorem toChars_single_zero (d : Dec) (h : d.toChars = ['0']) : d.coef = 0 := by
  obtain ⟨ng, co, sc⟩ := d
  cases ng
  · rw [show Dec.toChars ⟨false, co, sc⟩ =
      (if sc = 0 then natToChars co
        else natToChars (co / 10 ^ sc) ++ '.' :: natToCharsPadded (co % 10 ^ sc) sc) by
        simp [Dec.toChars]] at h
    rcases Nat.eq_zero_or_pos sc with hs | hs
    · rw [if_pos hs] at h
      have := charsToNat_natToChars co
      rw [h] at this
      simpa [charsToNat] using this.symm
    · rw [if_neg (by omega)] at h
      have hlen := congrArg List.length h
      have hpos : 0 < (natToChars (co / 10 ^ sc)).length :=
        List.length_pos.mpr (natToChars_ne_nil _)
      simp [List.length_append] at hlen
      omega
  · rw [show Dec.toChars ⟨true, co, sc⟩ =
      '-' :: (if sc = 0 then natToChars co
        else natToChars (co / 10 ^ sc) ++ '.' :: natToCharsPadded (co % 10 ^ sc) sc) by
        simp [Dec.toChars]] at h
    rcases h with ⟨h1, -⟩

/-- The scanning loop collects a run of digit and point characters and
stops at the first other character, reporting its index. -/
theorem scanAux_all :
    ∀ (l : List Char), (∀ c ∈ l, isDigitChar c = true ∨ c = '.') →
    ∀ (stop : Char) (rest : List Char) (i : Nat) (acc : List Char),
    isDigitChar stop = false → stop ≠ '.' → stop ≠ ',' → stop ≠ '-' →
    0 < acc.length + l.length →
    scanDigitsAux (l ++ stop :: rest) i acc = ScanResult.found (acc ++ l) (i + l.length) := by
  intro l
  induction l with
  | nil =>
    intro _ stop rest i acc h1 h2 h3 h4 h5
    simp only [List.length_nil, Nat.add_zero] at h5
    simp only [List.nil_append, List.append_nil, List.length_nil, Nat.add_zero]
    unfold scanDigitsAux
    rw [if_neg (fun h => h4 h.2), if_neg (fun h => h.elim h2 h3),
      if_neg (isDigitChar_not_range stop h1), if_pos h5]
  | cons c t ih =>
    intro hmem stop rest i acc h1 h2 h3 h4 _
    have hcm := hmem c (by simp)
    have hmemt : ∀ e ∈ t, isDigitChar e = true ∨ e = '.' := fun e he => hmem e (by simp [he])
    rw [List.cons_append]
    rcases hcm with hdig | hdot
    · obtain ⟨hne1, -, hne3, hne4, -⟩ := isDigitChar_ne c hdig
      unfold scanDigitsAux
      rw [if_neg (fun h => hne1 h.2), if_neg (fun h => h.elim hne3 hne4),
        if_pos (isDigitChar_range c hdig)]
      rw [ih hmemt stop rest (i + 1) (acc ++ [c]) h1 h2 h3 h4 (by simp)]
      congr 1
      · simp
      · simp
        omega
    · subst hdot
      unfold scanDigitsAux
      rw [if_neg (fun h => absurd h.2 (by decide)), if_pos (Or.inl rfl)]
      rw [ih hmemt stop rest (i + 1) (acc ++ ['.']) h1 h2 h3 h4 (by simp)]
      congr 1
      · simp
      · simp
        omega

/-- The scanner isolates exactly one rendered decimal, stopping at the
designator letter that follows it. -/
theorem scan_token (d : Dec) (stop : Char) (rest : List Char)
    (h1 : isDigitChar stop = false) (h2 : stop ≠ '.') (h3 : stop ≠ ',') (h4 : stop ≠ '-') :
    scanDigits (d.toChars ++ stop :: rest) = ScanResult.found d.toChars d.toChars.length := by
  obtain ⟨ng, co, sc⟩ := d
  obtain ⟨c0, tl0, hbs, -⟩ := tc_body_shape co sc
  have hbody : ∀ c ∈ (if sc = 0 then natToChars co
      else natToChars (co / 10 ^ sc) ++ '.' :: natToCharsPadded (co % 10 ^ sc) sc),
      isDigitChar c = true ∨ c = '.' := by
    intro c hcmem
    rcases Nat.eq_zero_or_pos sc with hs | hs
    · rw [if_pos hs] at hcmem
      exact Or.inl (natToChars_digits _ c hcmem)
    · rw [if_neg (by omega)] at hcmem
      rcases List.mem_append.mp hcmem with h | h
      · exact Or.inl (natToChars_digits _ c h)
      · rcases List.mem_cons.mp h with h | h
        · exact Or.inr h
        · exact Or.inl (natToCharsPadded_digits _ _ c h)
  cases ng
  · rw [show Dec.toChars ⟨false, co, sc⟩ =
      (if sc = 0 then natToChars co
        else natToChars (co / 10 ^ sc) ++ '.' :: natToCharsPadded (co % 10 ^ sc) sc) by
        simp [Dec.toChars]]
    unfold scanDigits
    rw [scanAux_all _ hbody stop rest 0 [] h1 h2 h3 h4 (by rw [hbs]; simp)]
    simp
  · rw [show Dec.toChars ⟨true, co, sc⟩ =
      '-' :: (if sc = 0 then natToChars co
        else natToChars (co / 10 ^ sc) ++ '.' :: natToCharsPadded (co % 10 ^ sc) sc) by
        simp [Dec.toChars]]
    unfold scanDigits
    rw [List.cons_append]
    unfold scanDigitsAux
    rw [if_pos ⟨rfl, rfl⟩]
    simp only [List.nil_append, Nat.zero_add]
    rw [scanAux_all _ hbody stop rest 1 ['-'] h1 h2 h3 h4 (by simp)]
    congr 1
    simp only [List.length_cons]
    omega

/-- Parsing an all-digit string. -/
theorem decParseUnsigned_digits (b : Bool) (l : List Char)
    (hl : ∀ c ∈ l, isDigitChar c = true) (hne : l ≠ []) :
    decParseUnsigned b l = fitDec b (charsToNat l) 0 := by
  unfold decParseUnsigned
  rw [takeWhile_all _ l hl, dropWhile_all _ l hl]
  simp [hne]

/-- Parsing a digit string with a single interior point. -/
theorem decParseUnsigned_dotted (b : Bool) (a fp : List Char)
    (ha : ∀ c ∈ a, isDigitChar c = true) (hane : a ≠ [])
    (hb : ∀ c ∈ fp, isDigitChar c = true) :
    decParseUnsigned b (a ++ '.' :: fp) = fitDec b (charsToNat (a ++ fp)) fp.length := by
  unfold decParseUnsigned
  rw [takeWhile_append_stop _ a '.' fp ha (by decide),
    dropWhile_append_stop _ a '.' fp ha (by decide)]
  dsimp only
  rw [if_pos rfl, if_pos ⟨List.all_eq_true.mpr hb, Or.inl hane⟩]

/-- The digit body of a rendering parses back to the coefficient and
scale. -/
theorem decParseUnsigned_body (b : Bool) (co sc : Nat)
    (hc1 : co ≤ maxCoef) (hs1 : sc ≤ maxScale) (hc : co ≠ 0) :
    decParseUnsigned b (if sc = 0 then natToChars co
      else natToChars (co / 10 ^ sc) ++ '.' :: natToCharsPadded (co % 10 ^ sc) sc) =
      some ⟨b, co, sc⟩ := by
  rcases Nat.eq_zero_or_pos sc with hs | hs
  · subst hs
    rw [if_pos rfl,
      decParseUnsigned_digits b _ (natToChars_digits co) (natToChars_ne_nil co),
      charsToNat_natToChars, fitDec_fits b co 0 hc1 (Nat.zero_le _)]
    simp [hc]
  · rw [if_neg (by omega),
      decParseUnsigned_dotted b _ _ (natToChars_digits _) (natToChars_ne_nil _)
        (natToCharsPadded_digits _ _)]
    have hlen : (natToCharsPadded (co % 10 ^ sc) sc).length = sc :=
      natToCharsPadded_length _ _ (Nat.mod_lt _ (by positivity))
    rw [charsToNat_append, charsToNat_natToChars, natToCharsPadded_val, hlen,
      Nat.mul_comm (co / 10 ^ sc) (10 ^ sc), Nat.div_add_mod,
      fitDec_fits b co sc hc1 hs1]
    simp [hc]

/-- The decimal renderer is inverted by the decimal parser on non-zero
well-formed decimals. -/
theorem decParse_toChars (d : Dec) (hw : d.wf) (hc : d.coef ≠ 0) :
    Dec.Parse d.toChars = some d := by
  obtain ⟨hc1, hs1, -⟩ := hw
  obtain ⟨ng, co, sc⟩ := d
  obtain ⟨c0, tl0, hbs, hcd⟩ := tc_body_shape co sc
  obtain ⟨hne1, hne2, -, -, -⟩ := isDigitChar_ne c0 hcd
  cases ng
  · rw [show Dec.toChars ⟨false, co, sc⟩ =
      (if sc = 0 then natToChars co
        else natToChars (co / 10 ^ sc) ++ '.' :: natToCharsPadded (co % 10 ^ sc) sc) by
        simp [Dec.toChars], hbs]
    unfold Dec.Parse
    dsimp only
    rw [if_neg hne1, if_neg hne2, ← hbs]
    exact decParseUnsigned_body false co sc hc1 hs1 hc
  · rw [show Dec.toChars ⟨true, co, sc⟩ =
      '-' :: (if sc = 0 then natToChars co
        else natToChars (co / 10 ^ sc) ++ '.' :: natToCharsPadded (co % 10 ^ sc) sc) by
        simp [Dec.toChars]]
    unfold Dec.Parse
    dsimp only
    rw [if_pos rfl]
    exact decParseUnsigned_body true co sc hc1 hs1 hc

/-- One token is consumed into the number, the designator and the rest. -/
theorem parseNextField_token (d : Dec) (ltr : Char) (rest : List Char) (isHMS : Bool)
    (des : Designator) (hw : d.wf) (hc : d.coef ≠ 0)
    (hdes : asDesignator ltr isHMS = some des)
    (h1 : isDigitChar ltr = false) (h2 : ltr ≠ '.') (h3 : ltr ≠ ',') (h4 : ltr ≠ '-') :
    parseNextField (d.toChars ++ ltr :: rest) isHMS = some (d, des, rest) := by
  unfold parseNextField
  rw [scan_token d ltr rest h1 h2 h3 h4]
  dsimp only
  rw [decParse_toChars d hw hc]
  dsimp only
  rw [List.drop_left]
  dsimp only
  rw [hdes]

/-- A successful field parse consumes at least one character. -/
theorem parseNextField_length (str : List Char) (isHMS : Bool) (d : Dec) (des : Designator)
    (rest : List Char) (h : parseNextField str isHMS = some (d, des, rest)) :
    rest.length < str.length := by
  unfold parseNextField at h
  rcases hsc : scanDigits str with ⟨number, i⟩ | _ | _ <;> rw [hsc] at h <;> dsimp only at h
  · rcases hdp : Dec.Parse number with _ | dec <;> rw [hdp] at h <;> dsimp only at h
    · exact absurd h (by simp)
    · rcases hdrop : str.drop i with _ | ⟨t, r2⟩ <;> rw [hdrop] at h <;> dsimp only at h
      · exact absurd h (by simp)
      · rcases hdes : asDesignator t isHMS with _ | des2 <;> rw [hdes] at h <;> dsimp only at h
        · exact absurd h (by simp)
        · have hr : rest = r2 := by
            have := Option.some.inj h
            exact (congrArg (fun x => x.2.2) this).symm
          subst hr
          have hlen := congrArg List.length hdrop
          rw [List.length_drop] at hlen
          simp only [List.length_cons] at hlen
          omega
  · exact absurd h (by simp)
  · exact absurd h (by simp)

/-- Unfolding equation for the parse loop on a non-empty input with
fuel left. -/
theorem parseLoop_cons (st : ParseState) (c : Char) (cs : List Char) (f : Nat) :
    parseLoop st (c :: cs) (f + 1) =
      if c = 'T' then
        (if st.isHMS then none
         else parseLoop
           { st with
             years := .Unready
             months := .Unready
             weeks := .Unready
             days := .Unready
             hours := .Armed
             minutes := .Armed
             seconds := .Armed
             isHMS := true } cs f)
      else
        match parseNextField (c :: cs) st.isHMS with
        | none => none
        | some (number, des, rest) =>
          if st.haveFraction ∧ number.Coef ≠ 0 then none
          else
            match setField st des number with
            | none => none
            | some st2 =>
              let st3 := { st2 with nComponents := st2.nComponents + 1 }
              let st4 := if 0 < number.Scale then { st3 with haveFraction := true } else st3
              parseLoop st4 rest f := rfl

/-- The parse loop on an exhausted input. -/
theorem parseLoop_nil (st : ParseState) (fuel : Nat) :
    parseLoop st [] fuel = if st.nComponents = 0 then none else some st.p.NormaliseSign := by
  cases fuel <;> rfl

/-- The fuel argument of the parse loop is irrelevant once it covers the
input length. -/
theorem parseLoop_fuel :
    ∀ (n : Nat) (s : List Char) (st : ParseState) (fuel fu2 : Nat),
    s.length ≤ n → s.length ≤ fuel → s.length ≤ fu2 →
    parseLoop st s fuel = parseLoop st s fu2 := by
  intro n
  induction n with
  | zero =>
    intro s st fuel fu2 hn _ _
    have hs : s = [] := List.eq_nil_of_length_eq_zero (by omega)
    subst hs
    rw [parseLoop_nil, parseLoop_nil]
  | succ m ih =>
    intro s st fuel fu2 hn hf hf2
    cases s with
    | nil => rw [parseLoop_nil, parseLoop_nil]
    | cons c cs =>
      simp only [List.length_cons] at hn hf hf2
      obtain ⟨f1, rfl⟩ : ∃ k, fuel = k + 1 := ⟨fuel - 1, by omega⟩
      obtain ⟨f2, rfl⟩ : ∃ k, fu2 = k + 1 := ⟨fu2 - 1, by omega⟩
      rw [parseLoop_cons, parseLoop_cons]
      by_cases hT : c = 'T'
      · rw [if_pos hT, if_pos hT]
        by_cases hH : st.isHMS
        · rw [if_pos hH, if_pos hH]
        · rw [if_neg hH, if_neg hH]
          exact ih cs _ f1 f2 (by omega) (by omega) (by omega)
      · rw [if_neg hT, if_neg hT]
        rcases hpn : parseNextField (c :: cs) st.isHMS with _ | ⟨num, des, rest⟩ <;> dsimp only
        have hlen := parseNextField_length _ _ _ _ _ hpn
        simp only [List.length_cons] at hlen
        by_cases hfr : st.haveFraction = true ∧ num.Coef ≠ 0
        · rw [if_pos hfr, if_pos hfr]
        · rw [if_neg hfr, if_neg hfr]
          rcases hsf : setField st des num with _ | st2 <;> dsimp only
          exact ih rest _ f1 f2 (by omega) (by omega) (by omega)

/-- The T marker retires the date designators and arms the time ones. -/
theorem parseLoop_T (st : ParseState) (rest : List Char) (fuel : Nat)
    (hH : st.isHMS = false) (hfuel : rest.length + 1 ≤ fuel) :
    parseLoop st ('T' :: rest) fuel =
      parseLoop
        { st with
          years := .Unready
          months := .Unready
          weeks := .Unready
          days := .Unready
          hours := .Armed
          minutes := .Armed
          seconds := .Armed
          isHMS := true } rest rest.length := by
  obtain ⟨f, rfl⟩ : ∃ k, fuel = k + 1 := ⟨fuel - 1, by omega⟩
  rw [parseLoop_cons, if_pos rfl, if_neg (by simp [hH])]
  exact parseLoop_fuel rest.length rest _ f rest.length le_rfl (by omega) le_rfl

/-- Consuming one non-zero field token from the input. -/
theorem parseLoop_tok_aux (st : ParseState) (d : Dec) (ltr : Char) (des : Designator)
    (rest : List Char) (fuel : Nat) (st2 : ParseState)
    (hw : d.wf) (hc : d.coef ≠ 0)
    (hdes : asDesignator ltr st.isHMS = some des)
    (h1 : isDigitChar ltr = false) (h2 : ltr ≠ '.') (h3 : ltr ≠ ',') (h4 : ltr ≠ '-')
    (hfr : st.haveFraction = false)
    (hset : setField st des d = some st2)
    (hfuel : d.toChars.length + 1 + rest.length ≤ fuel) :
    parseLoop st (d.toChars ++ ltr :: rest) fuel =
      parseLoop (if 0 < d.Scale then
          { st2 with haveFraction := true, nComponents := st2.nComponents + 1 }
        else { st2 with nComponents := st2.nComponents + 1 }) rest rest.length := by
  obtain ⟨c0, tl, htc⟩ := List.exists_cons_of_ne_nil (toChars_ne_nil d)
  have hlen : d.toChars.length = tl.length + 1 := by rw [htc]; rfl
  obtain ⟨f, rfl⟩ : ∃ k, fuel = k + 1 := ⟨fuel - 1, by omega⟩
  rw [htc, List.cons_append, parseLoop_cons]
  have hcT : ¬(c0 = 'T') := by
    rcases toChars_head_cases d c0 tl htc with h | h
    · exact fun he => by rw [he] at h; exact absurd h (by decide)
    · exact fun he => by rw [he] at h; exact absurd h (by decide)
  rw [if_neg hcT]
  have hpn : parseNextField (c0 :: (tl ++ ltr :: rest)) st.isHMS = some (d, des, rest) := by
    rw [show c0 :: (tl ++ ltr :: rest) = d.toChars ++ ltr :: rest by rw [htc, List.cons_append]]
    exact parseNextField_token d ltr rest st.isHMS des hw hc hdes h1 h2 h3 h4
  rw [hpn]
  dsimp only
  rw [if_neg (by simp [hfr]), hset]
  dsimp only
  exact parseLoop_fuel rest.length rest _ f rest.length le_rfl (by omega) le_rfl

/-- Consuming the (possibly empty) years token. -/
theorem parseLoop_fieldY (st : ParseState) (d : Dec) (rest : List Char) (fuel : Nat)
    (hw : d.wf) (hhms : st.isHMS = false) (harm : st.years = ItemState.Armed)
    (hp0 : st.p.years = Dec.zero)
    (hfr : d.coef ≠ 0 → st.haveFraction = false)
    (hfuel : (writeFieldChars d Designator.Year).length + rest.length ≤ fuel) :
    parseLoop st (writeFieldChars d Designator.Year ++ rest) fuel =
      parseLoop
        { st with
          years := if d.coef = 0 then ItemState.Armed else ItemState.Set
          p := { st.p with years := canonZeroDec d }
          haveFraction := st.haveFraction || decide (d.coef ≠ 0 ∧ 0 < d.scale)
          nComponents := st.nComponents + if d.coef = 0 then 0 else 1 }
        rest rest.length := by
  by_cases hc : d.coef = 0
  · have htok : writeFieldChars d Designator.Year = [] := by
      simp [writeFieldChars, Dec.Coef, hc]
    rw [htok] at hfuel
    simp only [List.length_nil, Nat.zero_add] at hfuel
    rw [htok, List.nil_append]
    have h1 : (if d.coef = 0 then ItemState.Armed else ItemState.Set) = st.years := by
      rw [if_pos hc, harm]
    have h2 : canonZeroDec d = st.p.years := by
      rw [hp0]
      simp [canonZeroDec, hc]
    have h3 : (st.haveFraction || decide (d.coef ≠ 0 ∧ 0 < d.scale)) = st.haveFraction := by
      simp [hc]
    have h4 : st.nComponents + (if d.coef = 0 then 0 else 1) = st.nComponents := by
      rw [if_pos hc]
      omega
    rw [h1, h2, h3, h4]
    exact parseLoop_fuel rest.length rest st fuel rest.length le_rfl hfuel le_rfl
  · have htok : writeFieldChars d Designator.Year = d.toChars ++ ['Y'] := by
      simp [writeFieldChars, Dec.Coef, hc, Designator.Byte]
    rw [htok] at hfuel
    simp only [List.length_append, List.length_cons, List.length_nil] at hfuel
    rw [htok, List.append_assoc, List.singleton_append]
    rw [parseLoop_tok_aux st d 'Y' Designator.Year rest fuel
        { st with years := ItemState.Set, p := { st.p with years := d } }
        hw hc (by rw [hhms]; decide) (by decide) (by decide) (by decide) (by decide)
        (hfr hc) (by simp [setField, harm]) (by omega)]
    refine congrArg (fun s => parseLoop s rest rest.length) ?_
    by_cases hsc : 0 < d.scale
    · rw [if_pos (show 0 < d.Scale from hsc), hfr hc]
      have hdec : decide (d.coef ≠ 0 ∧ 0 < d.scale) = true := by simp [hc, hsc]
      rw [hdec, Bool.false_or, if_neg hc, if_neg hc,
        show canonZeroDec d = d from by simp [canonZeroDec, hc]]
    · rw [if_neg (show ¬(0 < d.Scale) from hsc), hfr hc]
      have hdec : decide (d.coef ≠ 0 ∧ 0 < d.scale) = false := by
        simp [hc, hsc]
      rw [hdec, Bool.or_false, if_neg hc, if_neg hc,
        show canonZeroDec d = d from by simp [canonZeroDec, hc]]

/-- Consuming the (possibly empty) months token. -/
theorem parseLoop_fieldMo (st : ParseState) (d : Dec) (rest : List Char) (fuel : Nat)
    (hw : d.wf) (hhms : st.isHMS = false) (harm : st.months = ItemState.Armed)
    (hp0 : st.p.months = Dec.zero)
    (hfr : d.coef ≠ 0 → st.haveFraction = false)
    (hfuel : (writeFieldChars d Designator.Month).length + rest.length ≤ fuel) :
    parseLoop st (writeFieldChars d Designator.Month ++ rest) fuel =
      parseLoop
        { st with
          months := if d.coef = 0 then ItemState.Armed else ItemState.Set
          p := { st.p with months := canonZeroDec d }
          haveFraction := st.haveFraction || decide (d.coef ≠ 0 ∧ 0 < d.scale)
          nComponents := st.nComponents + if d.coef = 0 then 0 else 1 }
        rest rest.length := by
  by_cases hc : d.coef = 0
  · have htok : writeFieldChars d Designator.Month = [] := by
      simp [writeFieldChars, Dec.Coef, hc]
    rw [htok] at hfuel
    simp only [List.length_nil, Nat.zero_add] at hfuel
    rw [htok, List.nil_append]
    have h1 : (if d.coef = 0 then ItemState.Armed else ItemState.Set) = st.months := by
      rw [if_pos hc, harm]
    have h2 : canonZeroDec d = st.p.months := by
      rw [hp0]
      simp [canonZeroDec, hc]
    have h3 : (st.haveFraction || decide (d.coef ≠ 0 ∧ 0 < d.scale)) = st.haveFraction := by
      simp [hc]
    have h4 : st.nComponents + (if d.coef = 0 then 0 else 1) = st.nComponents := by
      rw [if_pos hc]
      omega
    rw [h1, h2, h3, h4]
    exact parseLoop_fuel rest.length rest st fuel rest.length le_rfl hfuel le_rfl
  · have htok : writeFieldChars d Designator.Month = d.toChars ++ ['M'] := by
      simp [writeFieldChars, Dec.Coef, hc, Designator.Byte]
    rw [htok] at hfuel
    simp only [List.length_append, List.length_cons, List.length_nil] at hfuel
    rw [htok, List.append_assoc, List.singleton_append]
    rw [parseLoop_tok_aux st d 'M' Designator.Month rest fuel
        { st with months := ItemState.Set, p := { st.p with months := d } }
        hw hc (by rw [hhms]; decide) (by decide) (by decide) (by decide) (by decide)
        (hfr hc) (by simp [setField, harm]) (by omega)]
    refine congrArg (fun s => parseLoop s rest rest.length) ?_
    by_cases hsc : 0 < d.scale
    · rw [if_pos (show 0 < d.Scale from hsc), hfr hc]
      have hdec : decide (d.coef ≠ 0 ∧ 0 < d.scale) = true := by simp [hc, hsc]
      rw [hdec, Bool.false_or, if_neg hc, if_neg hc,
        show canonZeroDec d = d from by simp [canonZeroDec, hc]]
    · rw [if_neg (show ¬(0 < d.Scale) from hsc), hfr hc]
      have hdec : decide (d.coef ≠ 0 ∧ 0 < d.scale) = false := by
        simp [hc, hsc]
      rw [hdec, Bool.or_false, if_neg hc, if_neg hc,
        show canonZeroDec d = d from by simp [canonZeroDec, hc]]

/-- Consuming the (possibly empty) weeks token. -/
theorem parseLoop_fieldW (st : ParseState) (d : Dec) (rest : List Char) (fuel : Nat)
    (hw : d.wf) (hhms : st.isHMS = false) (harm : st.weeks = ItemState.Armed)
    (hp0 : st.p.weeks = Dec.zero)
    (hfr : d.coef ≠ 0 → st.haveFraction = false)
    (hfuel : (writeFieldChars d Designator.Week).length + rest.length ≤ fuel) :
    parseLoop st (writeFieldChars d Designator.Week ++ rest) fuel =
      parseLoop
        { st with
          weeks := if d.coef = 0 then ItemState.Armed else ItemState.Set
          p := { st.p with weeks := canonZeroDec d }
          haveFraction := st.haveFraction || decide (d.coef ≠ 0 ∧ 0 < d.scale)
          nComponents := st.nComponents + if d.coef = 0 then 0 else 1 }
        rest rest.length := by
  by_cases hc : d.coef = 0
  · have htok : writeFieldChars d Designator.Week = [] := by
      simp [writeFieldChars, Dec.Coef, hc]
    rw [htok] at hfuel
    simp only [List.length_nil, Nat.zero_add] at hfuel
    rw [htok, List.nil_append]
    have h1 : (if d.coef = 0 then ItemState.Armed else ItemState.Set) = st.weeks := by
      rw [if_pos hc, harm]
    have h2 : canonZeroDec d = st.p.weeks := by
      rw [hp0]
      simp [canonZeroDec, hc]
    have h3 : (st.haveFraction || decide (d.coef ≠ 0 ∧ 0 < d.scale)) = st.haveFraction := by
      simp [hc]
    have h4 : st.nComponents + (if d.coef = 0 then 0 else 1) = st.nComponents := by
      rw [if_pos hc]
      omega
    rw [h1, h2, h3, h4]
    exact parseLoop_fuel rest.length rest st fuel rest.length le_rfl hfuel le_rfl
  · have htok : writeFieldChars d Designator.Week = d.toChars ++ ['W'] := by
      simp [writeFieldChars, Dec.Coef, hc, Designator.Byte]
    rw [htok] at hfuel
    simp only [List.length_append, List.length_cons, List.length_nil] at hfuel
    rw [htok, List.append_assoc, List.singleton_append]
    rw [parseLoop_tok_aux st d 'W' Designator.Week rest fuel
        { st with weeks := ItemState.Set, p := { st.p with weeks := d } }
        hw hc (by rw [hhms]; decide) (by decide) (by decide) (by decide) (by decide)
        (hfr hc) (by simp [setField, harm]) (by omega)]
    refine congrArg (fun s => parseLoop s rest rest.length) ?_
    by_cases hsc : 0 < d.scale
    · rw [if_pos (show 0 < d.Scale from hsc), hfr hc]
      have hdec : decide (d.coef ≠ 0 ∧ 0 < d.scale) = true := by simp [hc, hsc]
      rw [hdec, Bool.false_or, if_neg hc, if_neg hc,
        show canonZeroDec d = d from by simp [canonZeroDec, hc]]
    · rw [if_neg (show ¬(0 < d.Scale) from hsc), hfr hc]
      have hdec : decide (d.coef ≠ 0 ∧ 0 < d.scale) = false := by
        simp [hc, hsc]
      rw [hdec, Bool.or_false, if_neg hc, if_neg hc,
        show canonZeroDec d = d from by simp [canonZeroDec, hc]]

/-- Consuming the (possibly empty) days token. -/
theorem parseLoop_fieldD (st : ParseState) (d : Dec) (rest : List Char) (fuel : Nat)
    (hw : d.wf) (hhms : st.isHMS = false) (harm : st.days = ItemState.Armed)
    (hp0 : st.p.days = Dec.zero)
    (hfr : d.coef ≠ 0 → st.haveFraction = false)
    (hfuel : (writeFieldChars d Designator.Day).length + rest.length ≤ fuel) :
    parseLoop st (writeFieldChars d Designator.Day ++ rest) fuel =
      parseLoop
        { st with
          days := if d.coef = 0 then ItemState.Armed else ItemState.Set
          p := { st.p with days := canonZeroDec d }
          haveFraction := st.haveFraction || decide (d.coef ≠ 0 ∧ 0 < d.scale)
          nComponents := st.nComponents + if d.coef = 0 then 0 else 1 }
        rest rest.length := by
  by_cases hc : d.coef = 0
  · have htok : writeFieldChars d Designator.Day = [] := by
      simp [writeFieldChars, Dec.Coef, hc]
    rw [htok] at hfuel
    simp only [List.length_nil, Nat.zero_add] at hfuel
    rw [htok, List.nil_append]
    have h1 : (if d.coef = 0 then ItemState.Armed else ItemState.Set) = st.days := by
      rw [if_pos hc, harm]
    have h2 : canonZeroDec d = st.p.days := by
      rw [hp0]
      simp [canonZeroDec, hc]
    have h3 : (st.haveFraction || decide (d.coef ≠ 0 ∧ 0 < d.scale)) = st.haveFraction := by
      simp [hc]
    have h4 : st.nComponents + (if d.coef = 0 then 0 else 1) = st.nComponents := by
      rw [if_pos hc]
      omega
    rw [h1, h2, h3, h4]
    exact parseLoop_fuel rest.length rest st fuel rest.length le_rfl hfuel le_rfl
  · have htok : writeFieldChars d Designator.Day = d.toChars ++ ['D'] := by
      simp [writeFieldChars, Dec.Coef, hc, Designator.Byte]
    rw [htok] at hfuel
    simp only [List.length_append, List.length_cons, List.length_nil] at hfuel
    rw [htok, List.append_assoc, List.singleton_append]
    rw [parseLoop_tok_aux st d 'D' Designator.Day rest fuel
        { st with days := ItemState.Set, p := { st.p with days := d } }
        hw hc (by rw [hhms]; decide) (by decide) (by decide) (by decide) (by decide)
        (hfr hc) (by simp [setField, harm]) (by omega)]
    refine congrArg (fun s => parseLoop s rest rest.length) ?_
    by_cases hsc : 0 < d.scale
    · rw [if_pos (show 0 < d.Scale from hsc), hfr hc]
      have hdec : decide (d.coef ≠ 0 ∧ 0 < d.scale) = true := by simp [hc, hsc]
      rw [hdec, Bool.false_or, if_neg hc, if_neg hc,
        show canonZeroDec d = d from by simp [canonZeroDec, hc]]
    · rw [if_neg (show ¬(0 < d.Scale) from hsc), hfr hc]
      have hdec : decide (d.coef ≠ 0 ∧ 0 < d.scale) = false := by
        simp [hc, hsc]
      rw [hdec, Bool.or_false, if_neg hc, if_neg hc,
        show canonZeroDec d = d from by simp [canonZeroDec, hc]]

/-- Consuming the (possibly empty) hours token. -/
theorem parseLoop_fieldH (st : ParseState) (d : Dec) (rest : List Char) (fuel : Nat)
    (hw : d.wf) (hhms : st.isHMS = true) (harm : st.hours = ItemState.Armed)
    (hp0 : st.p.hours = Dec.zero)
    (hfr : d.coef ≠ 0 → st.haveFraction = false)
    (hfuel : (writeFieldChars d Designator.Hour).length + rest.length ≤ fuel) :
    parseLoop st (writeFieldChars d Designator.Hour ++ rest) fuel =
      parseLoop
        { st with
          hours := if d.coef = 0 then ItemState.Armed else ItemState.Set
          p := { st.p with hours := canonZeroDec d }
          haveFraction := st.haveFraction || decide (d.coef ≠ 0 ∧ 0 < d.scale)
          nComponents := st.nComponents + if d.coef = 0 then 0 else 1 }
        rest rest.length := by
  by_cases hc : d.coef = 0
  · have htok : writeFieldChars d Designator.Hour = [] := by
      simp [writeFieldChars, Dec.Coef, hc]
    rw [htok] at hfuel
    simp only [List.length_nil, Nat.zero_add] at hfuel
    rw [htok, List.nil_append]
    have h1 : (if d.coef = 0 then ItemState.Armed else ItemState.Set) = st.hours := by
      rw [if_pos hc, harm]
    have h2 : canonZeroDec d = st.p.hours := by
      rw [hp0]
      simp [canonZeroDec, hc]
    have h3 : (st.haveFraction || decide (d.coef ≠ 0 ∧ 0 < d.scale)) = st.haveFraction := by
      simp [hc]
    have h4 : st.nComponents + (if d.coef = 0 then 0 else 1) = st.nComponents := by
      rw [if_pos hc]
      omega
    rw [h1, h2, h3, h4]
    exact parseLoop_fuel rest.length rest st fuel rest.length le_rfl hfuel le_rfl
  · have htok : writeFieldChars d Designator.Hour = d.toChars ++ ['H'] := by
      simp [writeFieldChars, Dec.Coef, hc, Designator.Byte]
    rw [htok] at hfuel
    simp only [List.length_append, List.length_cons, List.length_nil] at hfuel
    rw [htok, List.append_assoc, List.singleton_append]
    rw [parseLoop_tok_aux st d 'H' Designator.Hour rest fuel
        { st with hours := ItemState.Set, p := { st.p with hours := d } }
        hw hc (by rw [hhms]; decide) (by decide) (by decide) (by decide) (by decide)
        (hfr hc) (by simp [setField, harm]) (by omega)]
    refine congrArg (fun s => parseLoop s rest rest.length) ?_
    by_cases hsc : 0 < d.scale
    · rw [if_pos (show 0 < d.Scale from hsc), hfr hc]
      have hdec : decide (d.coef ≠ 0 ∧ 0 < d.scale) = true := by simp [hc, hsc]
      rw [hdec, Bool.false_or, if_neg hc, if_neg hc,
        show canonZeroDec d = d from by simp [canonZeroDec, hc]]
    · rw [if_neg (show ¬(0 < d.Scale) from hsc), hfr hc]
      have hdec : decide (d.coef ≠ 0 ∧ 0 < d.scale) = false := by
        simp [hc, hsc]
      rw [hdec, Bool.or_false, if_neg hc, if_neg hc,
        show canonZeroDec d = d from by simp [canonZeroDec, hc]]

/-- Consuming the (possibly empty) minutes token. -/
theorem parseLoop_fieldMi (st : ParseState) (d : Dec) (rest : List Char) (fuel : Nat)
    (hw : d.wf) (hhms : st.isHMS = true) (harm : st.minutes = ItemState.Armed)
    (hp0 : st.p.minutes = Dec.zero)
    (hfr : d.coef ≠ 0 → st.haveFraction = false)
    (hfuel : (writeFieldChars d Designator.Minute).length + rest.length ≤ fuel) :
    parseLoop st (writeFieldChars d Designator.Minute ++ rest) fuel =
      parseLoop
        { st with
          minutes := if d.coef = 0 then ItemState.Armed else ItemState.Set
          p := { st.p with minutes := canonZeroDec d }
          haveFraction := st.haveFraction || decide (d.coef ≠ 0 ∧ 0 < d.scale)
          nComponents := st.nComponents + if d.coef = 0 then 0 else 1 }
        rest rest.length := by
  by_cases hc : d.coef = 0
  · have htok : writeFieldChars d Designator.Minute = [] := by
      simp [writeFieldChars, Dec.Coef, hc]
    rw [htok] at hfuel
    simp only [List.length_nil, Nat.zero_add] at hfuel
    rw [htok, List.nil_append]
    have h1 : (if d.coef = 0 then ItemState.Armed else ItemState.Set) = st.minutes := by
      rw [if_pos hc, harm]
    have h2 : canonZeroDec d = st.p.minutes := by
      rw [hp0]
      simp [canonZeroDec, hc]
    have h3 : (st.haveFraction || decide (d.coef ≠ 0 ∧ 0 < d.scale)) = st.haveFraction := by
      simp [hc]
    have h4 : st.nComponents + (if d.coef = 0 then 0 else 1) = st.nComponents := by
      rw [if_pos hc]
      omega
    rw [h1, h2, h3, h4]
    exact parseLoop_fuel rest.length rest st fuel rest.length le_rfl hfuel le_rfl
  · have htok : writeFieldChars d Designator.Minute = d.toChars ++ ['M'] := by
      simp [writeFieldChars, Dec.Coef, hc, Designator.Byte]
    rw [htok] at hfuel
    simp only [List.length_append, List.length_cons, List.length_nil] at hfuel
    rw [htok, List.append_assoc, List.singleton_append]
    rw [parseLoop_tok_aux st d 'M' Designator.Minute rest fuel
        { st with minutes := ItemState.Set, p := { st.p with minutes := d } }
        hw hc (by rw [hhms]; decide) (by decide) (by decide) (by decide) (by decide)
        (hfr hc) (by simp [setField, harm]) (by omega)]
    refine congrArg (fun s => parseLoop s rest rest.length) ?_
    by_cases hsc : 0 < d.scale
    · rw [if_pos (show 0 < d.Scale from hsc), hfr hc]
      have hdec : decide (d.coef ≠ 0 ∧ 0 < d.scale) = true := by simp [hc, hsc]
      rw [hdec, Bool.false_or, if_neg hc, if_neg hc,
        show canonZeroDec d = d from by simp [canonZeroDec, hc]]
    · rw [if_neg (show ¬(0 < d.Scale) from hsc), hfr hc]
      have hdec : decide (d.coef ≠ 0 ∧ 0 < d.scale) = false := by
        simp [hc, hsc]
      rw [hdec, Bool.or_false, if_neg hc, if_neg hc,
        show canonZeroDec d = d from by simp [canonZeroDec, hc]]

/-- Consuming the (possibly empty) seconds token. -/
theorem parseLoop_fieldS (st : ParseState) (d : Dec) (rest : List Char) (fuel : Nat)
    (hw : d.wf) (hhms : st.isHMS = true) (harm : st.seconds = ItemState.Armed)
    (hp0 : st.p.seconds = Dec.zero)
    (hfr : d.coef ≠ 0 → st.haveFraction = false)
    (hfuel : (writeFieldChars d Designator.Second).length + rest.length ≤ fuel) :
    parseLoop st (writeFieldChars d Designator.Second ++ rest) fuel =
      parseLoop
        { st with
          seconds := if d.coef = 0 then ItemState.Armed else ItemState.Set
          p := { st.p with seconds := canonZeroDec d }
          haveFraction := st.haveFraction || decide (d.coef ≠ 0 ∧ 0 < d.scale)
          nComponents := st.nComponents + if d.coef = 0 then 0 else 1 }
        rest rest.length := by
  by_cases hc : d.coef = 0
  · have htok : writeFieldChars d Designator.Second = [] := by
      simp [writeFieldChars, Dec.Coef, hc]
    rw [htok] at hfuel
    simp only [List.length_nil, Nat.zero_add] at hfuel
    rw [htok, List.nil_append]
    have h1 : (if d.coef = 0 then ItemState.Armed else ItemState.Set) = st.seconds := by
      rw [if_pos hc, harm]
    have h2 : canonZeroDec d = st.p.seconds := by
      rw [hp0]
      simp [canonZeroDec, hc]
    have h3 : (st.haveFraction || decide (d.coef ≠ 0 ∧ 0 < d.scale)) = st.haveFraction := by
      simp [hc]
    have h4 : st.nComponents + (if d.coef = 0 then 0 else 1) = st.nComponents := by
      rw [if_pos hc]
      omega
    rw [h1, h2, h3, h4]
    exact parseLoop_fuel rest.length rest st fuel rest.length le_rfl hfuel le_rfl
  · have htok : writeFieldChars d Designator.Second = d.toChars ++ ['S'] := by
      simp [writeFieldChars, Dec.Coef, hc, Designator.Byte]
    rw [htok] at hfuel
    simp only [List.length_append, List.length_cons, List.length_nil] at hfuel
    rw [htok, List.append_assoc, List.singleton_append]
    rw [parseLoop_tok_aux st d 'S' Designator.Second rest fuel
        { st with seconds := ItemState.Set, p := { st.p with seconds := d } }
        hw hc (by rw [hhms]; decide) (by decide) (by decide) (by decide) (by decide)
        (hfr hc) (by simp [setField, harm]) (by omega)]
    refine congrArg (fun s => parseLoop s rest rest.length) ?_
    by_cases hsc : 0 < d.scale
    · rw [if_pos (show 0 < d.Scale from hsc), hfr hc]
      have hdec : decide (d.coef ≠ 0 ∧ 0 < d.scale) = true := by simp [hc, hsc]
      rw [hdec, Bool.false_or, if_neg hc, if_neg hc,
        show canonZeroDec d = d from by simp [canonZeroDec, hc]]
    · rw [if_neg (show ¬(0 < d.Scale) from hsc), hfr hc]
      have hdec : decide (d.coef ≠ 0 ∧ 0 < d.scale) = false := by
        simp [hc, hsc]
      rw [hdec, Bool.or_false, if_neg hc, if_neg hc,
        show canonZeroDec d = d from by simp [canonZeroDec, hc]]

/-- A list of zero-coefficient decimals satisfies the fraction-placement
condition. -/
theorem fracLastList_zero (l : List Dec) (h : ∀ e ∈ l, e.coef = 0) :
    fracLastList l = true := by
  induction l with
  | nil => rfl
  | cons d t ih =>
    unfold fracLastList
    rw [if_neg (fun hx => hx.1 (h d (by simp)))]
    exact ih (fun e he => h e (by simp [he]))

/-- Unpacking the fraction-placement condition one entry at a time. -/
theorem fracLastList_cons_elim (d : Dec) (l : List Dec) (h : fracLastList (d :: l) = true) :
    fracLastList l = true ∧ (d.coef ≠ 0 → 0 < d.scale → ∀ e ∈ l, e.coef = 0) := by
  unfold fracLastList at h
  by_cases hd : d.coef ≠ 0 ∧ 0 < d.scale
  · rw [if_pos hd] at h
    have hall : ∀ e ∈ l, e.coef = 0 := by
      intro e he
      exact of_decide_eq_true (List.all_eq_true.mp h e he)
    exact ⟨fracLastList_zero l hall, fun _ _ => hall⟩
  · rw [if_neg hd] at h
    exact ⟨h, fun h1 h2 => absurd ⟨h1, h2⟩ hd⟩

/-- Canonicalising a zero keeps the coefficient. -/
theorem canonZeroDec_coef (d : Dec) : (canonZeroDec d).coef = d.coef := by
  unfold canonZeroDec
  split_ifs with h
  · simp [Dec.zero, h]
  · rfl

/-- Canonicalising a zero keeps the method-level coefficient. -/
theorem canonZeroDec_Coef (d : Dec) : (canonZeroDec d).Coef = d.Coef := by
  unfold Dec.Coef
  exact canonZeroDec_coef d

/-- Canonicalising a zero keeps the sign. -/
theorem canonZeroDec_Sign (d : Dec) : (canonZeroDec d).Sign = d.Sign := by
  unfold canonZeroDec
  split_ifs with h
  · simp [Dec.Sign, Dec.zero, h]
  · rfl

/-- The fields of the zero-canonicalised period. -/
theorem fieldsList_canonZeros (p : Period64) :
    (p.canonZeros).fieldsList = p.fieldsList.map canonZeroDec := rfl

/-- Zero-canonicalisation does not move the first sign. -/
theorem firstSign_map_canon (l : List Dec) : firstSign (l.map canonZeroDec) = firstSign l := by
  induction l with
  | nil => rfl
  | cons d t ih =>
    by_cases h : d.Sign = 0 <;>
      simp [firstSign_cons, canonZeroDec_Sign, h, ih]

/-- A period whose leading sign is positive is a fixed point of
`NormaliseSign` after zero-canonicalisation. -/
theorem canonZeros_ns (p : Period64) (h : 0 < firstSign p.fieldsList) :
    (p.canonZeros).NormaliseSign = p.canonZeros := by
  rw [ns_eq_firstSign, fieldsList_canonZeros, firstSign_map_canon, if_pos h]

/-- A period with a positive leading sign does not canonicalise to the
zero period. -/
theorem canonZeros_ne_zero (p : Period64) (h : 0 < firstSign p.fieldsList) :
    p.canonZeros ≠ Period64.Zero := by
  intro he
  have h2 : firstSign (p.canonZeros).fieldsList = 0 := by
    rw [he]
    decide
  rw [fieldsList_canonZeros, firstSign_map_canon] at h2
  omega

/-- A token is insensitive to zero-canonicalisation. -/
theorem writeFieldChars_canon (d : Dec) (des : Designator) :
    writeFieldChars (canonZeroDec d) des = writeFieldChars d des := by
  by_cases h : d.coef = 0
  · simp [writeFieldChars, canonZeroDec, h, Dec.Coef, Dec.zero]
  · simp [writeFieldChars, canonZeroDec, h, Dec.Coef]

/-- The formatter cannot tell a period from its zero-canonicalised
form. -/
theorem toChars_canonZeros (p : Period64) (hz : p ≠ Period64.Zero)
    (hcz : p.canonZeros ≠ Period64.Zero) :
    (p.canonZeros).toChars = p.toChars := by
  unfold Period64.toChars
  rw [if_neg hcz, if_neg hz]
  simp only [show (p.canonZeros).years = canonZeroDec p.years from rfl,
    show (p.canonZeros).months = canonZeroDec p.months from rfl,
    show (p.canonZeros).weeks = canonZeroDec p.weeks from rfl,
    show (p.canonZeros).days = canonZeroDec p.days from rfl,
    show (p.canonZeros).hours = canonZeroDec p.hours from rfl,
    show (p.canonZeros).minutes = canonZeroDec p.minutes from rfl,
    show (p.canonZeros).seconds = canonZeroDec p.seconds from rfl,
    show (p.canonZeros).neg = p.neg from rfl,
    writeFieldChars_canon, canonZeroDec_Coef]

/-- A non-zero token followed by its designator never spells a
two-character zero body. -/
theorem tok_ne_pair (d : Dec) (hc : d.coef ≠ 0) (x y : Char) (R : List Char)
    (h : d.toChars ++ x :: R = ['0', y]) : False := by
  obtain ⟨c0, tl, htc⟩ := List.exists_cons_of_ne_nil (toChars_ne_nil d)
  rw [htc, List.cons_append] at h
  rw [List.cons.injEq] at h
  obtain ⟨h1, h2⟩ := h
  cases tl with
  | nil =>
    have htc0 : d.toChars = ['0'] := by rw [htc, h1]
    exact hc (toChars_single_zero d htc0)
  | cons c1 tl2 =>
    have := congrArg List.length h2
    simp [List.length_append] at this

/-- A token-led body never starts with the T marker. -/
theorem tok_head_ne_T (d : Dec) (X z : List Char) (h : d.toChars ++ X = 'T' :: z) : False := by
  obtain ⟨c0, tl, htc⟩ := List.exists_cons_of_ne_nil (toChars_ne_nil d)
  rw [htc, List.cons_append, List.cons.injEq] at h
  obtain ⟨h1, -⟩ := h
  rcases toChars_head_cases d c0 tl htc with hh | hh
  · rw [h1] at hh
    exact absurd hh (by decide)
  · rw [h1] at hh
    exact absurd hh (by decide)

/-- The formatted body of a period with a positive leading sign starts
with a non-zero token, possibly after a T marker. -/
theorem period_body_split (p : Period64) (hfs : 0 < firstSign p.fieldsList) :
    (∃ (d : Dec) (ltr : Char) (r2 : List Char), d.coef ≠ 0 ∧
      (writeFieldChars p.years Designator.Year ++
      (writeFieldChars p.months Designator.Month ++
      (writeFieldChars p.weeks Designator.Week ++
      (writeFieldChars p.days Designator.Day ++
      (if p.hours.Coef = 0 ∧ p.minutes.Coef = 0 ∧ p.seconds.Coef = 0 then []
        else 'T' :: (writeFieldChars p.hours Designator.Hour ++ (writeFieldChars p.minutes Designator.Minute ++ writeFieldChars p.seconds Designator.Second))))))) = d.toChars ++ ltr :: r2) ∨
    (∃ (d : Dec) (ltr : Char) (r2 : List Char), d.coef ≠ 0 ∧
      (writeFieldChars p.years Designator.Year ++
      (writeFieldChars p.months Designator.Month ++
      (writeFieldChars p.weeks Designator.Week ++
      (writeFieldChars p.days Designator.Day ++
      (if p.hours.Coef = 0 ∧ p.minutes.Coef = 0 ∧ p.seconds.Coef = 0 then []
        else 'T' :: (writeFieldChars p.hours Designator.Hour ++ (writeFieldChars p.minutes Designator.Minute ++ writeFieldChars p.seconds Designator.Second))))))) = 'T' :: (d.toChars ++ ltr :: r2)) := by
  by_cases hY : p.years.coef = 0
  · by_cases hM : p.months.coef = 0
    · by_cases hW : p.weeks.coef = 0
      · by_cases hD : p.days.coef = 0
        · by_cases hT3 : p.hours.Coef = 0 ∧ p.minutes.Coef = 0 ∧ p.seconds.Coef = 0
          · exfalso
            have h0 : firstSign p.fieldsList = 0 := by
              rw [firstSign_zero_iff]
              intro e he
              simp [Period64.fieldsList] at he
              rcases he with rfl|rfl|rfl|rfl|rfl|rfl|rfl <;> rw [Dec.Sign_eq_zero_iff]
              exacts [hY, hM, hW, hD, hT3.1, hT3.2.1, hT3.2.2]
            omega
          · right
            by_cases hH : p.hours.coef = 0
            · by_cases hMi : p.minutes.coef = 0
              · have hS : p.seconds.coef ≠ 0 := fun hS0 => hT3 ⟨hH, hMi, hS0⟩
                refine ⟨p.seconds, 'S', [], hS, ?_⟩
                simp [writeFieldChars, Dec.Coef, hY, hM, hW, hD, hH, hMi, hS,
                  Designator.Byte, hT3, List.append_assoc]
              · refine ⟨p.minutes, 'M', writeFieldChars p.seconds Designator.Second, hMi, ?_⟩
                simp [writeFieldChars, Dec.Coef, hY, hM, hW, hD, hH, hMi,
                  Designator.Byte, hT3, List.append_assoc]
            · refine ⟨p.hours, 'H', writeFieldChars p.minutes Designator.Minute ++ writeFieldChars p.seconds Designator.Second, hH, ?_⟩
              simp [writeFieldChars, Dec.Coef, hY, hM, hW, hD, hH,
                Designator.Byte, hT3, List.append_assoc]
        · left
          refine ⟨p.days, 'D',
            (if p.hours.Coef = 0 ∧ p.minutes.Coef = 0 ∧ p.seconds.Coef = 0 then []
        else 'T' :: (writeFieldChars p.hours Designator.Hour ++ (writeFieldChars p.minutes Designator.Minute ++ writeFieldChars p.seconds Designator.Second))), hD, ?_⟩
          simp [writeFieldChars, Dec.Coef, hY, hM, hW, hD, Designator.Byte, List.append_assoc]
      · left
        refine ⟨p.weeks, 'W', writeFieldChars p.days Designator.Day ++
          (if p.hours.Coef = 0 ∧ p.minutes.Coef = 0 ∧ p.seconds.Coef = 0 then []
        else 'T' :: (writeFieldChars p.hours Designator.Hour ++ (writeFieldChars p.minutes Designator.Minute ++ writeFieldChars p.seconds Designator.Second))), hW, ?_⟩
        simp [writeFieldChars, Dec.Coef, hY, hM, hW, Designator.Byte, List.append_assoc]
    · left
      refine ⟨p.months, 'M', writeFieldChars p.weeks Designator.Week ++ (writeFieldChars p.days Designator.Day ++
        (if p.hours.Coef = 0 ∧ p.minutes.Coef = 0 ∧ p.seconds.Coef = 0 then []
        else 'T' :: (writeFieldChars p.hours Designator.Hour ++ (writeFieldChars p.minutes Designator.Minute ++ writeFieldChars p.seconds Designator.Second)))), hM, ?_⟩
      simp [writeFieldChars, Dec.Coef, hY, hM, Designator.Byte, List.append_assoc]
  · left
    refine ⟨p.years, 'Y', writeFieldChars p.months Designator.Month ++ (writeFieldChars p.weeks Designator.Week ++ (writeFieldChars p.days Designator.Day ++
      (if p.hours.Coef = 0 ∧ p.minutes.Coef = 0 ∧ p.seconds.Coef = 0 then []
        else 'T' :: (writeFieldChars p.hours Designator.Hour ++ (writeFieldChars p.minutes Designator.Minute ++ writeFieldChars p.seconds Designator.Second))))), hY, ?_⟩
    simp [writeFieldChars, Dec.Coef, hY, Designator.Byte, List.append_assoc]

/-- The body the formatter produces for a period with a positive leading
sign is never one of the literal zero spellings. -/
theorem body_not_zeroForm (p : Period64) (hfs : 0 < firstSign p.fieldsList) :
    ('P' :: (writeFieldChars p.years Designator.Year ++
      (writeFieldChars p.months Designator.Month ++
      (writeFieldChars p.weeks Designator.Week ++
      (writeFieldChars p.days Designator.Day ++
      (if p.hours.Coef = 0 ∧ p.minutes.Coef = 0 ∧ p.seconds.Coef = 0 then []
        else 'T' :: (writeFieldChars p.hours Designator.Hour ++ (writeFieldChars p.minutes Designator.Minute ++ writeFieldChars p.seconds Designator.Second)))))))) ∉ zeroForms := by
  intro hmem
  rcases period_body_split p hfs with ⟨d, ltr, r2, hc, hEq⟩ | ⟨d, ltr, r2, hc, hEq⟩
  · rw [hEq] at hmem
    simp only [zeroForms, List.mem_cons, List.mem_singleton, List.mem_nil_iff, or_false] at hmem
    rcases hmem with h|h|h|h|h|h|h <;> rw [List.cons.injEq] at h
    · exact tok_ne_pair d hc ltr 'Y' r2 h.2
    · exact tok_ne_pair d hc ltr 'M' r2 h.2
    · exact tok_ne_pair d hc ltr 'W' r2 h.2
    · exact tok_ne_pair d hc ltr 'D' r2 h.2
    · exact tok_head_ne_T d (ltr :: r2) _ h.2
    · exact tok_head_ne_T d (ltr :: r2) _ h.2
    · exact tok_head_ne_T d (ltr :: r2) _ h.2
  · rw [hEq] at hmem
    simp only [zeroForms, List.mem_cons, List.mem_singleton, List.mem_nil_iff, or_false] at hmem
    rcases hmem with h|h|h|h|h|h|h <;> rw [List.cons.injEq, List.cons.injEq] at h
    · exact absurd h.2.1 (by decide)
    · exact absurd h.2.1 (by decide)
    · exact absurd h.2.1 (by decide)
    · exact absurd h.2.1 (by decide)
    · exact tok_ne_pair d hc ltr 'H' r2 h.2.2
    · exact tok_ne_pair d hc ltr 'M' r2 h.2.2
    · exact tok_ne_pair d hc ltr 'S' r2 h.2.2

/-- Parsing the formatted text of a period with a positive leading sign
recovers the period up to zero-canonicalisation. -/
theorem parse_toChars (p : Period64) (hw : p.wf) (hfl : p.fracLast = true)
    (hz : p ≠ Period64.Zero) (hfs : 0 < firstSign p.fieldsList) :
    Period64.ParseChars p.toChars = some p.canonZeros := by
  have hwY : p.years.wf := hw p.years (by simp [Period64.fieldsList])
  have hwMo : p.months.wf := hw p.months (by simp [Period64.fieldsList])
  have hwW : p.weeks.wf := hw p.weeks (by simp [Period64.fieldsList])
  have hwD : p.days.wf := hw p.days (by simp [Period64.fieldsList])
  have hwH : p.hours.wf := hw p.hours (by simp [Period64.fieldsList])
  have hwMi : p.minutes.wf := hw p.minutes (by simp [Period64.fieldsList])
  have hwS : p.seconds.wf := hw p.seconds (by simp [Period64.fieldsList])
  have hfl0 : fracLastList
      [p.years, p.months, p.weeks, p.days, p.hours, p.minutes, p.seconds] = true := hfl
  obtain ⟨hfl2, hfrY⟩ := fracLastList_cons_elim _ _ hfl0
  obtain ⟨hfl3, hfrMo⟩ := fracLastList_cons_elim _ _ hfl2
  obtain ⟨hfl4, hfrW⟩ := fracLastList_cons_elim _ _ hfl3
  obtain ⟨hfl5, hfrD⟩ := fracLastList_cons_elim _ _ hfl4
  obtain ⟨hfl6, hfrH⟩ := fracLastList_cons_elim _ _ hfl5
  obtain ⟨hfl7, hfrMi⟩ := fracLastList_cons_elim _ _ hfl6
  have hbY : ∀ X : Dec, X ∈ [p.months, p.weeks, p.days, p.hours, p.minutes, p.seconds] →
      X.coef ≠ 0 → decide (p.years.coef ≠ 0 ∧ 0 < p.years.scale) = false := by
    intro X hX hc
    apply decide_eq_false
    rintro ⟨h1, h2⟩
    exact hc (hfrY h1 h2 X hX)
  have hbMo : ∀ X : Dec, X ∈ [p.weeks, p.days, p.hours, p.minutes, p.seconds] →
      X.coef ≠ 0 → decide (p.months.coef ≠ 0 ∧ 0 < p.months.scale) = false := by
    intro X hX hc
    apply decide_eq_false
    rintro ⟨h1, h2⟩
    exact hc (hfrMo h1 h2 X hX)
  have hbW : ∀ X : Dec, X ∈ [p.days, p.hours, p.minutes, p.seconds] →
      X.coef ≠ 0 → decide (p.weeks.coef ≠ 0 ∧ 0 < p.weeks.scale) = false := by
    intro X hX hc
    apply decide_eq_false
    rintro ⟨h1, h2⟩
    exact hc (hfrW h1 h2 X hX)
  have hbD : ∀ X : Dec, X ∈ [p.hours, p.minutes, p.seconds] →
      X.coef ≠ 0 → decide (p.days.coef ≠ 0 ∧ 0 < p.days.scale) = false := by
    intro X hX hc
    apply decide_eq_false
    rintro ⟨h1, h2⟩
    exact hc (hfrD h1 h2 X hX)
  have hbH : ∀ X : Dec, X ∈ [p.minutes, p.seconds] →
      X.coef ≠ 0 → decide (p.hours.coef ≠ 0 ∧ 0 < p.hours.scale) = false := by
    intro X hX hc
    apply decide_eq_false
    rintro ⟨h1, h2⟩
    exact hc (hfrH h1 h2 X hX)
  have hbMi : ∀ X : Dec, X ∈ [p.seconds] →
      X.coef ≠ 0 → decide (p.minutes.coef ≠ 0 ∧ 0 < p.minutes.scale) = false := by
    intro X hX hc
    apply decide_eq_false
    rintro ⟨h1, h2⟩
    exact hc (hfrMi h1 h2 X hX)
  have hloop : parseLoop (initState p.neg)
      (writeFieldChars p.years Designator.Year ++
      (writeFieldChars p.months Designator.Month ++
      (writeFieldChars p.weeks Designator.Week ++
      (writeFieldChars p.days Designator.Day ++
      (if p.hours.Coef = 0 ∧ p.minutes.Coef = 0 ∧ p.seconds.Coef = 0 then []
        else 'T' :: (writeFieldChars p.hours Designator.Hour ++ (writeFieldChars p.minutes Designator.Minute ++ writeFieldChars p.seconds Designator.Second)))))))
      ((writeFieldChars p.years Designator.Year ++
      (writeFieldChars p.months Designator.Month ++
      (writeFieldChars p.weeks Designator.Week ++
      (writeFieldChars p.days Designator.Day ++
      (if p.hours.Coef = 0 ∧ p.minutes.Coef = 0 ∧ p.seconds.Coef = 0 then []
        else 'T' :: (writeFieldChars p.hours Designator.Hour ++ (writeFieldChars p.minutes Designator.Minute ++ writeFieldChars p.seconds Designator.Second))))))).length + 1) = some p.canonZeros := by
    refine (parseLoop_fieldY _ _ _ _ hwY (by rfl) (by rfl) (by rfl) (fun _ => rfl)
      (by simp only [List.length_append]; omega)).trans ?_
    refine (parseLoop_fieldMo _ _ _ _ hwMo (by rfl) (by rfl) (by rfl) ?_
      (by simp only [List.length_append]; omega)).trans ?_
    · intro hcM
      show (false || decide (p.years.coef ≠ 0 ∧ 0 < p.years.scale)) = false
      rw [Bool.false_or]
      exact hbY p.months (by simp) hcM
    refine (parseLoop_fieldW _ _ _ _ hwW (by rfl) (by rfl) (by rfl) ?_
      (by simp only [List.length_append]; omega)).trans ?_
    · intro hcW
      show ((false || decide (p.years.coef ≠ 0 ∧ 0 < p.years.scale)) || decide (p.months.coef ≠ 0 ∧ 0 < p.months.scale)) = false
      rw [Bool.false_or, hbY p.weeks (by simp) hcW, Bool.false_or]
      exact hbMo p.weeks (by simp) hcW
    refine (parseLoop_fieldD _ _ _ _ hwD (by rfl) (by rfl) (by rfl) ?_
      (by simp only [List.length_append]; omega)).trans ?_
    · intro hcD
      show (((false || decide (p.years.coef ≠ 0 ∧ 0 < p.years.scale)) || decide (p.months.coef ≠ 0 ∧ 0 < p.months.scale)) || decide (p.weeks.coef ≠ 0 ∧ 0 < p.weeks.scale)) = false
      rw [Bool.false_or, hbY p.days (by simp) hcD, Bool.false_or,
        hbMo p.days (by simp) hcD, Bool.false_or]
      exact hbW p.days (by simp) hcD
    by_cases hT3 : p.hours.Coef = 0 ∧ p.minutes.Coef = 0 ∧ p.seconds.Coef = 0
    · rw [if_pos hT3, parseLoop_nil]
      show (if (((0 + (if p.years.coef = 0 then 0 else 1)) + (if p.months.coef = 0 then 0 else 1)) + (if p.weeks.coef = 0 then 0 else 1)) + (if p.days.coef = 0 then 0 else 1) = 0 then none
        else some (Period64.NormaliseSign
          { years := canonZeroDec p.years
            months := canonZeroDec p.months
            weeks := canonZeroDec p.weeks
            days := canonZeroDec p.days
            hours := Dec.zero
            minutes := Dec.zero
            seconds := Dec.zero
            neg := p.neg })) = some p.canonZeros
      have hdz : ¬(p.years.coef = 0 ∧ p.months.coef = 0 ∧ p.weeks.coef = 0 ∧
          p.days.coef = 0) := by
        rintro ⟨h1, h2, h3, h4⟩
        have h0 : firstSign p.fieldsList = 0 := by
          rw [firstSign_zero_iff]
          intro e he
          simp [Period64.fieldsList] at he
          rcases he with rfl|rfl|rfl|rfl|rfl|rfl|rfl <;> rw [Dec.Sign_eq_zero_iff]
          exacts [h1, h2, h3, h4, hT3.1, hT3.2.1, hT3.2.2]
        omega
      rw [if_neg ?hnA]
      case hnA =>
        intro h0
        split_ifs at h0 with a1 a2 a3 a4
        all_goals omega
      have hpeq :
          ({ years := canonZeroDec p.years
             months := canonZeroDec p.months
             weeks := canonZeroDec p.weeks
             days := canonZeroDec p.days
             hours := Dec.zero
             minutes := Dec.zero
             seconds := Dec.zero
             neg := p.neg } : Period64) = p.canonZeros := by
        apply period_ext
        · rfl
        · rfl
        · rfl
        · rfl
        · show Dec.zero = canonZeroDec p.hours
          rw [canonZeroDec, if_pos (show p.hours.coef = 0 from hT3.1)]
        · show Dec.zero = canonZeroDec p.minutes
          rw [canonZeroDec, if_pos (show p.minutes.coef = 0 from hT3.2.1)]
        · show Dec.zero = canonZeroDec p.seconds
          rw [canonZeroDec, if_pos (show p.seconds.coef = 0 from hT3.2.2)]
        · rfl
      rw [hpeq, canonZeros_ns p hfs]
    · rw [if_neg hT3]
      refine (parseLoop_T _ _ _ (by rfl) (by simp)).trans ?_
      refine (parseLoop_fieldH _ _ _ _ hwH (by rfl) (by rfl) (by rfl) ?_
        (by simp only [List.length_append]; omega)).trans ?_
      · intro hcH
        show ((((false || decide (p.years.coef ≠ 0 ∧ 0 < p.years.scale)) || decide (p.months.coef ≠ 0 ∧ 0 < p.months.scale)) || decide (p.weeks.coef ≠ 0 ∧ 0 < p.weeks.scale)) || decide (p.days.coef ≠ 0 ∧ 0 < p.days.scale)) = false
        rw [Bool.false_or, hbY p.hours (by simp) hcH, Bool.false_or,
          hbMo p.hours (by simp) hcH, Bool.false_or, hbW p.hours (by simp) hcH,
          Bool.false_or]
        exact hbD p.hours (by simp) hcH
      refine (parseLoop_fieldMi _ _ _ _ hwMi (by rfl) (by rfl) (by rfl) ?_
        (by simp only [List.length_append]; omega)).trans ?_
      · intro hcMi
        show (((((false || decide (p.years.coef ≠ 0 ∧ 0 < p.years.scale)) || decide (p.months.coef ≠ 0 ∧ 0 < p.months.scale)) || decide (p.weeks.coef ≠ 0 ∧ 0 < p.weeks.scale)) || decide (p.days.coef ≠ 0 ∧ 0 < p.days.scale)) || decide (p.hours.coef ≠ 0 ∧ 0 < p.hours.scale)) = false
        rw [Bool.false_or, hbY p.minutes (by simp) hcMi, Bool.false_or,
          hbMo p.minutes (by simp) hcMi, Bool.false_or, hbW p.minutes (by simp) hcMi,
          Bool.false_or, hbD p.minutes (by simp) hcMi, Bool.false_or]
        exact hbH p.minutes (by simp) hcMi
      rw [show writeFieldChars p.seconds Designator.Second =
        writeFieldChars p.seconds Designator.Second ++ ([] : List Char) from
        (List.append_nil _).symm]
      refine (parseLoop_fieldS _ _ _ _ hwS (by rfl) (by rfl) (by rfl) ?_
        (by simp only [List.length_append]; omega)).trans ?_
      · intro hcS
        show ((((((false || decide (p.years.coef ≠ 0 ∧ 0 < p.years.scale)) || decide (p.months.coef ≠ 0 ∧ 0 < p.months.scale)) || decide (p.weeks.coef ≠ 0 ∧ 0 < p.weeks.scale)) || decide (p.days.coef ≠ 0 ∧ 0 < p.days.scale)) || decide (p.hours.coef ≠ 0 ∧ 0 < p.hours.scale)) || decide (p.minutes.coef ≠ 0 ∧ 0 < p.minutes.scale)) = false
        rw [Bool.false_or, hbY p.seconds (by simp) hcS, Bool.false_or,
          hbMo p.seconds (by simp) hcS, Bool.false_or, hbW p.seconds (by simp) hcS,
          Bool.false_or, hbD p.seconds (by simp) hcS, Bool.false_or,
          hbH p.seconds (by simp) hcS, Bool.false_or]
        exact hbMi p.seconds (by simp) hcS
      rw [parseLoop_nil]
      show (if ((((((0 + (if p.years.coef = 0 then 0 else 1)) + (if p.months.coef = 0 then 0 else 1)) + (if p.weeks.coef = 0 then 0 else 1)) + (if p.days.coef = 0 then 0 else 1)) + (if p.hours.coef = 0 then 0 else 1)) + (if p.minutes.coef = 0 then 0 else 1)) + (if p.seconds.coef = 0 then 0 else 1) = 0 then none
        else some (Period64.NormaliseSign
          { years := canonZeroDec p.years
            months := canonZeroDec p.months
            weeks := canonZeroDec p.weeks
            days := canonZeroDec p.days
            hours := canonZeroDec p.hours
            minutes := canonZeroDec p.minutes
            seconds := canonZeroDec p.seconds
            neg := p.neg })) = some p.canonZeros
      rw [if_neg ?hnB]
      case hnB =>
        intro h0
        split_ifs at h0 with a1 a2 a3 a4 a5 a6 a7
        all_goals first | omega | exact hT3 ⟨a5, a6, a7⟩
      have hpeq :
          ({ years := canonZeroDec p.years
             months := canonZeroDec p.months
             weeks := canonZeroDec p.weeks
             days := canonZeroDec p.days
             hours := canonZeroDec p.hours
             minutes := canonZeroDec p.minutes
             seconds := canonZeroDec p.seconds
             neg := p.neg } : Period64) = p.canonZeros := rfl
      rw [hpeq, canonZeros_ns p hfs]
  cases hneg : p.neg
  case false =>
    have htc : p.toChars = 'P' ::
        (writeFieldChars p.years Designator.Year ++
      (writeFieldChars p.months Designator.Month ++
      (writeFieldChars p.weeks Designator.Week ++
      (writeFieldChars p.days Designator.Day ++
      (if p.hours.Coef = 0 ∧ p.minutes.Coef = 0 ∧ p.seconds.Coef = 0 then []
        else 'T' :: (writeFieldChars p.hours Designator.Hour ++ (writeFieldChars p.minutes Designator.Minute ++ writeFieldChars p.seconds Designator.Second))))))) := by
      unfold Period64.toChars
      rw [if_neg hz, hneg]
      simp [List.append_assoc]
    rw [htc]
    unfold Period64.ParseChars
    rw [if_neg (by simp)]
    dsimp only
    simp only [List.head?_cons, List.tail_cons]
    rw [if_neg (show ¬((some 'P' : Option Char) = some '-' ∨
      (some 'P' : Option Char) = some '+') from by decide)]
    rw [if_neg (body_not_zeroForm p hfs)]
    rw [if_neg (show ¬(('P' :: (writeFieldChars p.years Designator.Year ++
      (writeFieldChars p.months Designator.Month ++
      (writeFieldChars p.weeks Designator.Week ++
      (writeFieldChars p.days Designator.Day ++
      (if p.hours.Coef = 0 ∧ p.minutes.Coef = 0 ∧ p.seconds.Coef = 0 then []
        else 'T' :: (writeFieldChars p.hours Designator.Hour ++ (writeFieldChars p.minutes Designator.Minute ++ writeFieldChars p.seconds Designator.Second)))))))) = ([] : List Char)) from by simp)]
    dsimp only
    rw [if_pos rfl]
    rw [show (decide ((some 'P' : Option Char) = some '-')) = false from by decide]
    rw [hneg] at hloop
    simpa using hloop
  case true =>
    have htc : p.toChars = '-' :: 'P' ::
        (writeFieldChars p.years Designator.Year ++
      (writeFieldChars p.months Designator.Month ++
      (writeFieldChars p.weeks Designator.Week ++
      (writeFieldChars p.days Designator.Day ++
      (if p.hours.Coef = 0 ∧ p.minutes.Coef = 0 ∧ p.seconds.Coef = 0 then []
        else 'T' :: (writeFieldChars p.hours Designator.Hour ++ (writeFieldChars p.minutes Designator.Minute ++ writeFieldChars p.seconds Designator.Second))))))) := by
      unfold Period64.toChars
      rw [if_neg hz, hneg]
      simp [List.append_assoc]
    rw [htc]
    unfold Period64.ParseChars
    rw [if_neg (by simp)]
    dsimp only
    simp only [List.head?_cons, List.tail_cons]
    rw [if_pos (Or.inl (trivial : True))]
    rw [if_neg (body_not_zeroForm p hfs)]
    rw [if_neg (show ¬(('P' :: (writeFieldChars p.years Designator.Year ++
      (writeFieldChars p.months Designator.Month ++
      (writeFieldChars p.weeks Designator.Week ++
      (writeFieldChars p.days Designator.Day ++
      (if p.hours.Coef = 0 ∧ p.minutes.Coef = 0 ∧ p.seconds.Coef = 0 then []
        else 'T' :: (writeFieldChars p.hours Designator.Hour ++ (writeFieldChars p.minutes Designator.Minute ++ writeFieldChars p.seconds Designator.Second)))))))) = ([] : List Char)) from by simp)]
    dsimp only
    rw [if_pos rfl]
    rw [show (decide True) = true from by decide]
    rw [hneg] at hloop
    simpa using hloop

/-- C1 counterexample: the formatter produces "P-1Y" (from a period
with a negative years field and a clear flag), but parsing "P-1Y" and
re-formatting yields "-P1Y", not "P-1Y". -/
theorem c1_cex_mixed_sign :
    Period64.String { Period64.Zero with years := ⟨true, 1, 0⟩ } = ("P-1Y") ∧
    (Period64.Parse ("P-1Y")).map Period64.String = some ("-P1Y") ∧
    (("-P1Y") : GoString) ≠ ("P-1Y") := by
  refine ⟨?_, ?_, ?_⟩ <;> decide

/-- C1 (amended): round trip on canonical text — for every well-formed
period that is a fixed point of sign canonicalisation and whose
fraction, if any, sits on the last non-zero field, parsing the
formatted string and re-formatting the parse result returns the same
string: format(parse(format p)) = format p. -/
theorem c1_round_trip_canonical (p : Period64) (hw : p.wf) (hns : p.NormaliseSign = p)
    (hfl : p.fracLast = true) :
    (Period64.Parse p.String).map Period64.String = some p.String := by
  by_cases hz : p = Period64.Zero
  · subst hz
    decide
  · have hfs : 0 < firstSign p.fieldsList := by
      rcases lt_trichotomy (firstSign p.fieldsList) 0 with h|h|h
      · have e1 : p.NormaliseSign = p.flipSign := by
          rw [ns_eq_firstSign, if_neg (by omega), if_pos h]
        rw [e1] at hns
        have hflip := congrArg Period64.neg hns
        have hne : p.flipSign.neg = !p.neg := rfl
        rw [hne] at hflip
        cases hb : p.neg <;> rw [hb] at hflip <;> simp at hflip
      · have e1 : p.NormaliseSign = Period64.Zero := by
          rw [ns_eq_firstSign, if_neg (by omega), if_neg (by omega)]
        rw [e1] at hns
        exact absurd hns.symm hz
      · exact h
    have hparse := parse_toChars p hw hfl hz hfs
    have hcz := canonZeros_ne_zero p hfs
    have hfmt : (p.canonZeros).toChars = p.toChars := toChars_canonZeros p hz hcz
    show (Period64.ParseChars p.toChars).map Period64.String = some p.String
    rw [hparse, Option.map_some']
    show some (Period64.String p.canonZeros) = some (Period64.String p)
    unfold Period64.String
    rw [hfmt]

/-- C1 witness: the amended statement applied to the canonical period
P1Y. -/
theorem c1_witness :
    (Period64.Parse (Period64.String { Period64.Zero with years := ⟨false, 1, 0⟩ })).map
        Period64.String =
      some (Period64.String { Period64.Zero with years := ⟨false, 1, 0⟩ }) :=
  c1_round_trip_canonical { Period64.Zero with years := ⟨false, 1, 0⟩ }
    (by decide) (by decide) (by decide)
